import Mathlib

/-!
Shallow embedding of the storage and consistency core of the AWS Data API
(`chalicelib/dynamo_data_api.py`, `chalicelib/dynamo_table_utils.py`,
`chalicelib/dynamo_expression_handler.py`, `chalicelib/aws_data_api.py`,
`chalicelib/utils.py`).

Items are association lists of attribute name and value; a DynamoDB table is a
list of items keyed by the primary-key attribute.  Conditional update
expressions are represented structurally (SET / REMOVE / ADD clauses) rather
than as strings; where the Python code relies on the textual form of an
expression (substring tests, string joins of condition fragments), the
corresponding structural fact is computed at the call site and noted in a
comment.  Fallible operations return `Except Err` together with the table or
state as it stands when the error is raised, matching the mutate-then-raise
behaviour of the Python code.
-/

namespace DataAPI

/-- Attribute value: the embedding needs strings, numbers and booleans. -/
inductive Value where
  | str (s : String)
  | num (n : Int)
  | boolean (b : Bool)
deriving DecidableEq, Repr

/-- A record is a Python dict: an association list with unique keys. -/
abbrev Item := List (String × Value)

/-- Lookup the first binding of a key (Python dict access). -/
def aget {α : Type} : List (String × α) → String → Option α
  | [], _ => none
  | (k', v) :: rest, k => if k' = k then some v else aget rest k

/-- Overwrite the binding of a key in place, appending when absent
(Python dict assignment). -/
def aput {α : Type} : List (String × α) → String → α → List (String × α)
  | [], k, v => [(k, v)]
  | (k', v') :: rest, k, v =>
      if k' = k then (k', v) :: rest else (k', v') :: aput rest k v

/-- Remove every binding of a key (Python `del d[k]` / `d.pop(k, None)`). -/
def arem {α : Type} : List (String × α) → String → List (String × α)
  | [], _ => []
  | (k', v') :: rest, k =>
      if k' = k then arem rest k else (k', v') :: arem rest k

/-- Keys of a record, in insertion order. -/
def akeys {α : Type} (l : List (String × α)) : List String := l.map Prod.fst

/-- Merge the second map into the first with per-key overwrite
(Python `dict.update`). -/
def dmerge {α : Type} (base l : List (String × α)) : List (String × α) :=
  l.foldl (fun acc p => aput acc p.1 p.2) base

/- Reserved attribute names.  The module `chalicelib/parameters.py` is not part
of the provided sources; its constants are modelled from the spec. -/

/-- Modelled from the spec: `chalicelib/parameters.py` is missing from the
sources; the spec data model names the soft-delete marker field `Deleted`. -/
def DELETED : String := "Deleted"

/-- Modelled from the spec: reserved field `Tombstoned` (bool). -/
def TOMBSTONED : String := "Tombstoned"

/-- Modelled from the spec: reserved master-link field `ItemMasterID`. -/
def ITEM_MASTER_ID : String := "ItemMasterID"

/-- Modelled from the spec: reserved monotonic version field `ItemVersion`. -/
def ITEM_VERSION : String := "ItemVersion"

/-- Modelled from the spec: reserved audit field `LastUpdateDate`. -/
def LAST_UPDATE_DATE : String := "LastUpdateDate"

/-- Modelled from the spec: reserved audit field `LastUpdatedBy`. -/
def LAST_UPDATED_BY : String := "LastUpdatedBy"

/-- Modelled from the spec: reserved audit field `LastUpdateAction`. -/
def LAST_UPDATE_ACTION : String := "LastUpdateAction"

/-- Modelled from the spec: application attribute popped by
`utils.remove_internal_attrs` (`params.APP`). -/
def APP_ATTR : String := "App"

/-- Delete-mode policy of a namespace (`params.DELETE_MODE_TOMBSTONE` versus
the soft default). -/
inductive DeleteMode where
  | soft
  | tombstone
deriving DecidableEq, Repr

/-- Errors of the embedded core.  `conditionalCheckFailed` and `validation` are
DynamoDB-level errors (`ConditionalCheckFailedException`, `ClientError` for a
malformed request); `keyError` and `typeError` are Python runtime errors; the
rest mirror `chalicelib/exceptions.py`. -/
inductive Err where
  | conditionalCheckFailed
  | validation
  | constraintViolation
  | resourceNotFound
  | invalidArguments
  | unimplemented
  | keyError (k : String)
  | typeError
  | detailed
deriving DecidableEq, Repr

/-- A DynamoDB table: list of items, keyed by the primary-key attribute. -/
abbrev Table := List Item

/-- Fetch the row whose primary-key attribute equals `key` (raw `get_item`). -/
def tgetRow (tbl : Table) (pkName : String) (key : Value) : Option Item :=
  tbl.find? (fun it => aget it pkName == some key)

/-- Write a row back: replace the first row with this key, else append. -/
def tputRow : Table → String → Value → Item → Table
  | [], _, _, newIt => [newIt]
  | it :: rest, pkName, key, newIt =>
      if aget it pkName == some key then newIt :: rest
      else it :: tputRow rest pkName key newIt

/-- Delete the row with this key (DynamoDB `delete_item`: no error if absent). -/
def tdelRow : Table → String → Value → Table
  | [], _, _ => []
  | it :: rest, pkName, key =>
      if aget it pkName == some key then rest
      else it :: tdelRow rest pkName key

/-- Structural DynamoDB condition expression. -/
inductive Cond where
  | notExists (a : String)
  | attrEq (a : String) (v : Value)
  | conj (c₁ c₂ : Cond)
  | disj (c₁ c₂ : Cond)
deriving DecidableEq, Repr

/-- Evaluate a condition against an item; a missing attribute satisfies
`attribute_not_exists` and fails any comparison, as in DynamoDB. -/
def evalCond : Cond → Item → Bool
  | .notExists a, it => (aget it a).isNone
  | .attrEq a v, it => aget it a == some v
  | .conj c₁ c₂, it => evalCond c₁ it && evalCond c₂ it
  | .disj c₁ c₂, it => evalCond c₁ it || evalCond c₂ it

/-- Structural update expression: the three clause kinds handled by
`DynamoUpdateExpressionHandler` (SET, REMOVE, and numeric ADD), with the
expression-attribute names and values already resolved. -/
structure UpdExpr where
  sets : List (String × Value)
  removes : List String
  adds : List (String × Int)
deriving DecidableEq, Repr

/-- Attribute paths targeted by an update expression; DynamoDB rejects an
expression in which two paths overlap. -/
def updTargets (u : UpdExpr) : List String :=
  u.sets.map Prod.fst ++ u.removes ++ u.adds.map Prod.fst

/-- Apply the SET clauses in order. -/
def applySets (it : Item) (sets : List (String × Value)) : Item :=
  sets.foldl (fun acc p => aput acc p.1 p.2) it

/-- Apply the REMOVE clauses. -/
def applyRemoves (it : Item) (removes : List String) : Item :=
  removes.foldl arem it

/-- Apply one numeric ADD clause: increment when present, initialise when
absent (DynamoDB ADD on a number). -/
def applyAdd (it : Item) (k : String) (n : Int) : Item :=
  match aget it k with
  | some (.num m) => aput it k (.num (m + n))
  | _ => aput it k (.num n)

/-- Apply all ADD clauses. -/
def applyAdds (it : Item) (adds : List (String × Int)) : Item :=
  adds.foldl (fun acc p => applyAdd acc p.1 p.2) it

/-- Every ADD target must currently be numeric or absent, else DynamoDB raises
a validation error. -/
def addsValid (it : Item) (adds : List (String × Int)) : Bool :=
  adds.all (fun p =>
    match aget it p.1 with
    | none => true
    | some (.num _) => true
    | some _ => false)

/-- DynamoDB `update_item` on one table: validates the expression (overlapping
document paths and non-numeric ADD targets are rejected), evaluates the
condition against the current row (or against no attributes when the row is
absent), and on success applies the clauses to the current row — or to a fresh
row holding just the key — returning the new table and the new row
(`ReturnValues=ALL_NEW`). -/
def ddbUpdateItem (tbl : Table) (pkName : String) (key : Value) (u : UpdExpr)
    (cond : Option Cond) : Except Err (Table × Item) :=
  if ¬ (updTargets u).Nodup then .error .validation
  else
    let current := tgetRow tbl pkName key
    let condOk := match cond with
      | none => true
      | some c => evalCond c (current.getD [])
    if condOk = false then .error .conditionalCheckFailed
    else
      let base := current.getD [(pkName, key)]
      if addsValid base u.adds = false then .error .validation
      else
        let newIt := applyAdds (applyRemoves (applySets base u.sets) u.removes) u.adds
        .ok (tputRow tbl pkName key newIt, newIt)

/-- Namespace configuration, as passed to `DataAPIStorageHandler.__init__`.
The schema validator stands for the compiled `fastjsonschema` validator
(`none` means no schema is configured); the cache-refresh hit counting does not
change which validator runs in this embedding. -/
structure Config where
  pkName : String
  deleteMode : DeleteMode
  allowRuntimeDeleteModeChange : Bool
  allowNonItemMasterWrites : Bool
  strictOccv : Bool
  tableIndexes : List String
  schemaValidator : Option (Item → Bool) := none

/-- The two data tables of a namespace. -/
structure ApiState where
  resourceTable : Table
  metadataTable : Table
deriving DecidableEq, Repr

/-- the metadata record id (`utils.get_metaid`). -/
def get_metaid (id : String) : String := id ++ "-meta"

/-- Action names written to `LastUpdateAction` (values modelled from their
use; the exact strings do not influence any claim). -/
def ACTION_DELETE : String := "delete"

/-- Action name for restore operations. -/
def ACTION_RESTORE : String := "restore"

/-- Action name for attribute-removal operations. -/
def ACTION_REMOVE_ATTRIBUTE : String := "remove attribute"

/-- Action name for update operations. -/
def ACTION_UPDATE : String := "update"

/-- Audit decoration (`DynamoTableUtils.decorate_update_request`): appends the
`LastUpdateDate` / `LastUpdatedBy` / `LastUpdateAction` assignments to the SET
clause and, when auto-increment is on, appends `ADD ItemVersion 1`.  The Python
code round-trips the update expression through
`DynamoUpdateExpressionHandler`, which merges clauses per kind and re-renders
them in SET, REMOVE, ADD order; on the structural form this is exactly
appending to the per-kind clause lists. -/
def decorate (u : UpdExpr) (caller now action : String)
    (autoIncrement : Bool := true) : UpdExpr :=
  let u₁ : UpdExpr :=
    { u with sets := u.sets ++ [(LAST_UPDATE_DATE, .str now),
                                (LAST_UPDATED_BY, .str caller),
                                (LAST_UPDATE_ACTION, .str action)] }
  if autoIncrement then { u₁ with adds := u₁.adds ++ [(ITEM_VERSION, 1)] } else u₁

/-- Item fetch (`DataAPIStorageHandler._fetch_item`): returns the row unless it
is soft deleted (`Deleted` present and nonzero) and `force` is off. -/
def fetch_item (tbl : Table) (pkName id : String) (force : Bool) : Option Item :=
  match tgetRow tbl pkName (.str id) with
  | none => none
  | some it =>
      if (aget it DELETED).isNone || aget it DELETED == some (.num 0) || force
      then some it else none

/-- Character-list prefix test. -/
def isPrefixChars : List Char → List Char → Bool
  | [], _ => true
  | _ :: _, [] => false
  | c :: cs, d :: ds => c = d && isPrefixChars cs ds

/-- Character-list occurrence test. -/
def occursChars (sub : List Char) : List Char → Bool
  | [] => isPrefixChars sub []
  | d :: ds => isPrefixChars sub (d :: ds) || occursChars sub ds

/-- Substring test used by `_simple_update` (`"#del" in update_expression`);
for an attribute-removal expression the rendered text is the comma-join of the
attribute names. -/
def containsSub (s sub : String) : Bool := occursChars sub.data s.data

/-- Internal update (`DataAPIStorageHandler._simple_update`).  When the
rendered expression mentions the `#del` placeholder the call adds the
`attribute_not_exists(Deleted)` condition; a conditional-check failure is
absorbed as `false` (already deleted), any other storage error is wrapped as a
`DetailedException`.  `hasDel` is the substring test result computed at the
call site. -/
def simple_update (cfg : Config) (tbl : Table) (id : String)
    (sets : List (String × Value)) (removes : List String) (hasDel : Bool)
    (caller now action : String) : Table × Except Err Bool :=
  let cond : Option Cond := if hasDel then some (.notExists DELETED) else none
  let u := decorate ⟨sets, removes, []⟩ caller now action
  match ddbUpdateItem tbl cfg.pkName (.str id) u cond with
  | .ok (tbl', _) => (tbl', .ok true)
  | .error .conditionalCheckFailed => (tbl, .ok false)
  | .error _ => (tbl, .error .detailed)

/-- Attribute-level removal on the resource table
(`DataAPIStorageHandler.remove_resource_attributes`): renders
`REMOVE attr1,attr2,...`. -/
def remove_resource_attributes (cfg : Config) (tbl : Table) (id : String)
    (attrs : List String) (caller now : String) : Table × Except Err Bool :=
  simple_update cfg tbl id [] attrs
    (containsSub (String.intercalate "," attrs) "#del")
    caller now ACTION_REMOVE_ATTRIBUTE

/-- Attribute-level removal on the metadata table
(`DataAPIStorageHandler.remove_metadata_attributes`). -/
def remove_metadata_attributes (cfg : Config) (tbl : Table) (id : String)
    (attrs : List String) (caller now : String) : Table × Except Err Bool :=
  simple_update cfg tbl id [] attrs
    (containsSub (String.intercalate "," attrs) "#del")
    caller now ACTION_REMOVE_ATTRIBUTE

/-- Internal-attribute scrub (`utils.remove_internal_attrs`): pops the app
attribute, the three audit fields, and the literal names `api` and `type`. -/
def remove_internal_attrs (it : Item) : Item :=
  arem (arem (arem (arem (arem (arem it APP_ATTR) LAST_UPDATED_BY)
    LAST_UPDATE_DATE) LAST_UPDATE_ACTION) "api") "type"

/-- Whole-item delete of a resource (`DataAPIStorageHandler.delete_resource`).
A runtime delete-mode override is honoured only when the namespace allows it.
In tombstone mode the current item is fetched (without force, so an
already-deleted item raises `ResourceNotFound`), the primary key, item
version, item master, tombstone marker and internal attributes are retained,
and every remaining attribute is added to the REMOVE clause; the update sets
`Deleted = 1` (always, via the `#del` placeholder) and `Tombstoned = true`
(tombstone mode only). -/
def delete_resource (cfg : Config) (tbl : Table) (id caller now : String)
    (deleteModeOverride : Option DeleteMode) : Table × Except Err Bool :=
  let setMode :=
    match deleteModeOverride with
    | some m =>
        if cfg.allowRuntimeDeleteModeChange ∧ m ≠ cfg.deleteMode then m
        else cfg.deleteMode
    | none => cfg.deleteMode
  match setMode with
  | .tombstone =>
      match fetch_item tbl cfg.pkName id false with
      | none => (tbl, .error .resourceNotFound)
      | some current =>
          let scrubbed := remove_internal_attrs
            (arem (arem (arem (arem current cfg.pkName) ITEM_VERSION)
              ITEM_MASTER_ID) TOMBSTONED)
          let removeTokens := akeys scrubbed
          simple_update cfg tbl id
            [(DELETED, .num 1), (TOMBSTONED, .boolean true)] removeTokens
            true caller now ACTION_DELETE
  | .soft =>
      simple_update cfg tbl id [(DELETED, .num 1)] [] true caller now ACTION_DELETE

/-- Metadata row removal (`DataAPIStorageHandler.delete_metadata`). -/
def delete_metadata (cfg : Config) (tbl : Table) (id : String) : Table :=
  tdelRow tbl cfg.pkName (.str (get_metaid id))

/-- Public delete (`DataAPIStorageHandler.delete`).  A non-empty `Resource`
attribute list performs attribute-level removal (rejected when it names the
master-link field); a `Metadata` list without a `Resource` key removes
metadata attributes, or — when empty — forces a metadata-only whole delete.
Otherwise the whole item is deleted, with the metadata row dropped first in
tombstone mode. -/
def sdelete (cfg : Config) (st : ApiState) (id caller now : String)
    (resourceAttrs metadataAttrs : Option (List String))
    (deleteModeOverride : Option DeleteMode) : ApiState × Except Err Bool :=
  let wholeDelete (deleteMeta : Bool) : ApiState × Except Err Bool :=
    let st₁ := if deleteMeta
      then { st with metadataTable := delete_metadata cfg st.metadataTable id }
      else st
    let (tbl', r) := delete_resource cfg st₁.resourceTable id caller now deleteModeOverride
    ({ st₁ with resourceTable := tbl' }, r)
  match resourceAttrs with
  | some ra =>
      if ra.length > 0 then
        if ra.contains ITEM_MASTER_ID then (st, .error .invalidArguments)
        else
          let (tbl', r) := remove_resource_attributes cfg st.resourceTable id ra caller now
          ({ st with resourceTable := tbl' }, r)
      else wholeDelete (cfg.deleteMode = .tombstone)
  | none =>
      match metadataAttrs with
      | some ma =>
          if ma.length > 0 then
            let (tbl', r) := remove_metadata_attributes cfg st.metadataTable id ma caller now
            ({ st with metadataTable := tbl' }, r)
          else
            ({ st with metadataTable := delete_metadata cfg st.metadataTable id }, .ok true)
      | none => wholeDelete (cfg.deleteMode = .tombstone)

/-- Restore (`DataAPIStorageHandler.restore`).  The item is fetched with
force; the conditional update requires the literal lowercase attribute
`deleted` to equal 1 and `Tombstoned` to be false or absent (the Python code
hardcodes the expression-attribute name `"#d": "deleted"`), sets `deleted = 0`
and removes `Tombstoned`.  Only a conditional-check failure is translated to
`InvalidArguments`; other storage errors propagate. -/
def restore (cfg : Config) (tbl : Table) (id caller now : String) :
    Table × Except Err Unit :=
  match fetch_item tbl cfg.pkName id true with
  | none => (tbl, .error .resourceNotFound)
  | some _ =>
      let cond : Cond := .conj (.attrEq "deleted" (.num 1))
        (.disj (.attrEq TOMBSTONED (.boolean false)) (.notExists TOMBSTONED))
      let u := decorate ⟨[("deleted", .num 0)], [TOMBSTONED], []⟩ caller now ACTION_RESTORE
      match ddbUpdateItem tbl cfg.pkName (.str id) u (some cond) with
      | .ok (tbl', _) => (tbl', .ok ())
      | .error .conditionalCheckFailed => (tbl, .error .invalidArguments)
      | .error e => (tbl, .error e)

/-- Audit-field scrub before an update
(`DataAPIStorageHandler._sanitise_item_lastupdate_info`). -/
def sanitise_item (cfg : Config) (it : Item) : Item :=
  arem (arem (arem (arem (arem it cfg.pkName) LAST_UPDATE_DATE)
    LAST_UPDATED_BY) LAST_UPDATE_ACTION) ITEM_VERSION

/-- Core conditional update (`DataAPIStorageHandler._do_update`), with the
control flow of the Python source mirrored faithfully, including its failure
points:
the item is sanitised first;
the update expression starts as `REMOVE #del` plus one SET assignment per
attribute (a supplied item version is rendered as a SET of `ItemVersion`
before the item attributes);
a resource-table update on a namespace that disallows non-item-master writes
gets the condition `ItemMasterID absent or equal to the key` (held as a boto3
condition object, not a string);
when caller constraints are supplied the source invokes its rendering helper
without the required second positional argument, a `TypeError`;
otherwise, under strict OCCV, the condition `attribute_not_exists(ItemVersion)`
is built and, when an item version was supplied, the source reads
`item[ItemVersion]` from the sanitised item, a `KeyError`
(were the key present, its value would be used and the string condition would
then be joined with the condition object, a `TypeError` on a resource table
that disallows non-item-master writes, mirrored in the dead branch below);
finally the request is audit-decorated and sent, translating a
conditional-check failure into `ConstraintViolation` and letting any other
storage error propagate. -/
def do_update (cfg : Config) (tbl : Table) (resource_id : String) (item₀ : Item)
    (caller now : String) (item_version : Option Int) (is_resource_table : Bool)
    (update_constraints : Option Item) : Table × Except Err Item :=
  let item := sanitise_item cfg item₀
  let baseSets :=
    (match item_version with
     | some v => [(ITEM_VERSION, Value.num v)]
     | none => []) ++ item
  let masterCond : Option Cond :=
    if is_resource_table ∧ cfg.allowNonItemMasterWrites = false then
      some (.disj (.notExists ITEM_MASTER_ID) (.attrEq ITEM_MASTER_ID (.str resource_id)))
    else none
  let run (cond : Option Cond) : Table × Except Err Item :=
    let u := decorate ⟨baseSets, [DELETED], []⟩ caller now ACTION_UPDATE
    match ddbUpdateItem tbl cfg.pkName (.str resource_id) u cond with
    | .ok (tbl', newIt) => (tbl', .ok newIt)
    | .error .conditionalCheckFailed => (tbl, .error .constraintViolation)
    | .error e => (tbl, .error e)
  if is_resource_table ∧ (update_constraints.isSome ∨ cfg.strictOccv) then
    if update_constraints.isSome then
      (tbl, .error .typeError)
    else
      match item_version with
      | some _ =>
          match aget item ITEM_VERSION with
          | none => (tbl, .error (.keyError ITEM_VERSION))
          | some v =>
              if masterCond.isSome then (tbl, .error .typeError)
              else run (some (.disj (.notExists ITEM_VERSION) (.attrEq ITEM_VERSION v)))
      | none =>
          if masterCond.isSome then (tbl, .error .typeError)
          else run (some (.notExists ITEM_VERSION))
  else run masterCond

/-- Update request body (`DataAPIStorageHandler.update_item` keyword
arguments).  `hasReferences` records the presence of the `References` top-level
argument, which is handled outside the storage core. -/
structure UpdateRequest where
  metadata : Option Item := none
  resource : Option Item := none
  constraints : Option Item := none
  itemVersion : Option Int := none
  hasReferences : Bool := false

/-- Public update (`DataAPIStorageHandler.update_item`).  At least one of the
three top-level arguments must be present (the source builds that error
message with a mismatched `%` format, a `TypeError`); a supplied metadata
document is written first, unconditionally; then the resource document is
checked — its copy of the primary key is ensured, a payload naming the
master-link field is rejected, the schema validator runs when one is
configured — and written conditionally; a returned `ItemMasterID` different
from the key yields a non-item-master warning, returning that master id. -/
def update_item (cfg : Config) (st : ApiState) (caller now id : String)
    (req : UpdateRequest) : ApiState × Except Err (Option Value) :=
  if ¬ (req.metadata.isSome ∨ req.resource.isSome ∨ req.hasReferences) then
    (st, .error .typeError)
  else
    let metaStep : ApiState × Option Err :=
      match req.metadata with
      | some m =>
          let (mt', r) := do_update cfg st.metadataTable (get_metaid id) m
            caller now none false none
          match r with
          | .error e => ({ st with metadataTable := mt' }, some e)
          | .ok _ => ({ st with metadataTable := mt' }, none)
      | none => (st, none)
    match metaStep with
    | (st₁, some e) => (st₁, .error e)
    | (st₁, none) =>
        match req.resource with
        | none => (st₁, .ok none)
        | some item₀ =>
            let item₁ := if (aget item₀ cfg.pkName).isNone
              then aput item₀ cfg.pkName (.str id) else item₀
            if (aget item₁ ITEM_MASTER_ID).isSome then
              (st₁, .error .invalidArguments)
            else
              let schemaOk := match cfg.schemaValidator with
                | some f => f item₁
                | none => true
              if schemaOk = false then (st₁, .error .invalidArguments)
              else
                let item₂ := arem item₁ cfg.pkName
                let (rt', r) := do_update cfg st₁.resourceTable id item₂
                  caller now req.itemVersion true req.constraints
                match r with
                | .error e => ({ st₁ with resourceTable := rt' }, .error e)
                | .ok newIt =>
                    let warn := match aget newIt ITEM_MASTER_ID with
                      | some v => if v ≠ .str id then some v else none
                      | none => none
                    ({ st₁ with resourceTable := rt' }, .ok warn)

/-- Structured item returned by the storage layer
(`DataAPIStorageHandler._structure_item`): the resource facet plus the
optional metadata facet; the ARN field is the address of `id` and carries no
further information in this embedding. -/
structure SItem where
  resource : Item
  metadata : Option Item
deriving DecidableEq, Repr

/-- Metadata fetch (`DataAPIStorageHandler._fetch_meta`): the metadata row
without its primary-key attribute. -/
def fetch_meta (cfg : Config) (st : ApiState) (id : String) : Option Item :=
  match fetch_item st.metadataTable cfg.pkName (get_metaid id) false with
  | none => none
  | some m => some (arem m cfg.pkName)

/-- Storage-level get (`DataAPIStorageHandler.get`): `ResourceNotFound` for a
missing or soft-deleted item, else the structured item, with the metadata
fetch optionally suppressed. -/
def storage_get (cfg : Config) (st : ApiState) (id : String)
    (suppressMetaFetch : Bool) : Except Err SItem :=
  match fetch_item st.resourceTable cfg.pkName id false with
  | none => .error .resourceNotFound
  | some it =>
      if suppressMetaFetch then .ok ⟨it, none⟩
      else .ok ⟨it, fetch_meta cfg st id⟩

/-- Lowercasing used for the master-option comparison (`str.lower()`). -/
def strLower (s : String) : String := String.mk (s.data.map Char.toLower)

/-- Read a stored master-link value as an id for the follow-up fetch. -/
def valueAsId : Value → String
  | .str s => s
  | .num n => toString n
  | .boolean b => toString b

/-- Facade get response: the item under its own key and the optional master. -/
structure GetResponse where
  item : Option SItem
  master : Option SItem
deriving DecidableEq, Repr

/-- Facade get (`AwsDataAPI.get`).  The `Item` slot is filled unless the item
carries a master link and the caller passed a master option other than
`include` (the source comment: set the Item in the response unless the master
option is prefer); the `Master` slot is filled when the item carries a master
link and the option is `include` or `prefer`, by a second storage get that can
itself fail. -/
def api_get (cfg : Config) (st : ApiState) (id : String)
    (masterOption : Option String) : Except Err GetResponse :=
  match storage_get cfg st id false with
  | .error e => .error e
  | .ok sit =>
      let masterVal := aget sit.resource ITEM_MASTER_ID
      let optLower := masterOption.map strLower
      let includeItem := masterVal.isNone ∨ masterOption.isNone ∨
        optLower = some "include"
      let needMaster := masterVal.isSome ∧ masterOption.isSome ∧
        (optLower = some "include" ∨ optLower = some "prefer")
      if needMaster then
        match storage_get cfg st (valueAsId (masterVal.getD (.str ""))) false with
        | .error e => .error e
        | .ok msit =>
            .ok ⟨if includeItem then some sit else none, some msit⟩
      else
        .ok ⟨if includeItem then some sit else none, none⟩

/-- Facade item-master removal (`AwsDataAPI.item_master_delete`).  Without a
key the call is `ResourceNotFound`; the item is fetched (propagating
`ResourceNotFound` for a missing or deleted item); with no stored master the
call returns `true` without writing; a stored master different from the
asserted one is `InvalidArguments`; otherwise the master-link attribute is
removed. -/
def item_master_delete (cfg : Config) (st : ApiState) (caller now : String)
    (kwId : Option String) (assertMaster : Option Value) :
    ApiState × Except Err Bool :=
  match kwId with
  | none => (st, .error .resourceNotFound)
  | some id =>
      match storage_get cfg st id false with
      | .error e => (st, .error e)
      | .ok current =>
          match aget current.resource ITEM_MASTER_ID with
          | none => (st, .ok true)
          | some cm =>
              if some cm ≠ assertMaster then (st, .error .invalidArguments)
              else
                let (tbl', r) := remove_resource_attributes cfg st.resourceTable
                  id [ITEM_MASTER_ID] caller now
                ({ st with resourceTable := tbl' }, r)

/-- Expression-token sanitiser (`DynamoTableUtils.make_ddb_expressionval`):
strips every non-word character. -/
def make_ddb_expressionval (s : String) : String :=
  String.mk (s.toList.filter (fun c => c.isAlphanum || c = '_'))

/-- Rendered filter data of `DataAPIStorageHandler._get_filter_expression`:
the conjunction as a list of (name token, value token) pairs — duplicates are
kept, as in the rendered string — plus the expression-attribute name and value
dictionaries, which overwrite on token collision. -/
structure FilterParts where
  conj : List (String × String)
  names : List (String × String)
  values : List (String × Value)
deriving DecidableEq, Repr

/-- Build the filter parts from a criteria dictionary. -/
def get_filter_expression (filters : List (String × Value)) : FilterParts :=
  filters.foldl
    (fun fp p =>
      let tok := make_ddb_expressionval p.1
      ⟨fp.conj ++ [("#" ++ tok, ":" ++ tok)],
       aput fp.names ("#" ++ tok) p.1,
       aput fp.values (":" ++ tok) p.2⟩)
    ⟨[], [], []⟩

/-- Filter expression over name and value tokens; `delFilter` is the fragment
added by `_add_deleted_filter`:
`(attribute_not_exists(#deleted) or #deleted <> :deleted)`. -/
inductive FE where
  | tokEq (n v : String)
  | delFilter
  | conj (a b : FE)
deriving DecidableEq, Repr

/-- Evaluate a filter expression after resolving its tokens through the
expression-attribute dictionaries; an unresolvable token never happens on the
requests DynamoDB accepts. -/
def evalFE (names : List (String × String)) (values : List (String × Value)) :
    FE → Item → Bool
  | .tokEq n v, it =>
      match aget names n, aget values v with
      | some a, some w => aget it a == some w
      | _, _ => false
  | .delFilter, it =>
      match aget names "#deleted", aget values ":deleted" with
      | some a, some w =>
          (match aget it a with
           | none => true
           | some x => x ≠ w)
      | _, _ => false
  | .conj a b, it => evalFE names values a it && evalFE names values b it

/-- Conjunction of rendered equality tokens (`" AND ".join`); only evaluated
under a nonempty guard, the empty case is arbitrary. -/
def conjFE : List (String × String) → FE
  | [] => .delFilter
  | [p] => .tokEq p.1 p.2
  | p :: q :: rest => .conj (.tokEq p.1 p.2) (conjFE (q :: rest))

/-- Base expression-attribute names installed by `_add_deleted_filter`. -/
def delNames : List (String × String) := [("#deleted", DELETED)]

/-- Base expression-attribute values installed by `_add_deleted_filter`. -/
def delValues : List (String × Value) := [(":deleted", Value.num 1)]

/-- Index query (`DataAPIStorageHandler._perform_query`) on the full index, no
pagination or limit: key condition is equality on the index attribute, plus
the deleted-item filter, plus the rendered query filters.  The query-filter
dictionary is always present on this path; when it is empty, the source
appends an empty string after an `and`, a malformed filter expression that
DynamoDB rejects — and `_perform_query` has no handler for that storage
error. -/
def perform_query (tbl : Table) (indexAttr : String) (searchValue : Value)
    (queryFilters : Option (List (String × Value))) : Except Err (List Item) :=
  match queryFilters with
  | none =>
      .ok (tbl.filter (fun it =>
        aget it indexAttr == some searchValue &&
        evalFE delNames delValues .delFilter it))
  | some fl =>
      let fp := get_filter_expression fl
      if fp.conj.isEmpty then .error .validation
      else
        let names := dmerge delNames fp.names
        let values := dmerge delValues fp.values
        .ok (tbl.filter (fun it =>
          aget it indexAttr == some searchValue &&
          evalFE names values (.conj .delFilter (conjFE fp.conj)) it))

/-- Table scan (`DataAPIStorageHandler._perform_scan`) on the full table, no
pagination, limit or parallel segments: the deleted-item filter plus the
rendered scan filters.  An empty filter dictionary again renders a malformed
expression; on this path the storage error is caught and re-raised as
`InvalidArguments`. -/
def perform_scan (tbl : Table)
    (scanFilters : Option (List (String × Value))) : Except Err (List Item) :=
  match scanFilters with
  | none =>
      .ok (tbl.filter (fun it => evalFE delNames delValues .delFilter it))
  | some fl =>
      let fp := get_filter_expression fl
      if fp.conj.isEmpty then .error .invalidArguments
      else
        let names := dmerge delNames fp.names
        let values := dmerge delValues fp.values
        .ok (tbl.filter (fun it =>
          evalFE names values (.conj .delFilter (conjFE fp.conj)) it))

/-- Index selection in `DataAPIStorageHandler.find`: the first criteria field
found among the configured index attributes (or equal to the master-link
field) is extracted, and the remaining criteria keep their order. -/
def find_index_attr (indexes : List String) :
    List (String × Value) → Option (String × Value × List (String × Value))
  | [] => none
  | (k, v) :: rest =>
      if indexes.contains k ∨ k = ITEM_MASTER_ID then some (k, v, rest)
      else
        match find_index_attr indexes rest with
        | some (k', v', rest') => some (k', v', (k, v) :: rest')
        | none => none

/-- Search path of `DataAPIStorageHandler.find` for one table and its
configured index attributes: an index query on the first matching criteria
field with the remaining fields as post-filters, else a full scan with all
fields as filters. -/
def find_items (indexes : List String) (tbl : Table)
    (criteria : List (String × Value)) : Except Err (List Item) :=
  match find_index_attr indexes criteria with
  | some (k, v, rest) => perform_query tbl k v (some rest)
  | none => perform_scan tbl (some criteria)

/-- The deleted-item exclusion shared by both search paths, with the
expression-attribute tokens already resolved: `Deleted` absent or different
from 1. -/
def notDeletedB (it : Item) : Bool :=
  match aget it DELETED with
  | none => true
  | some x => decide (x ≠ Value.num 1)

/-! Concrete namespaces, items and requests used to evaluate the embedded
operations at specific inputs. -/

/-- Soft-delete namespace with primary key `id`, non-item-master writes
allowed, strict OCCV off, no schema. -/
def exCfgSoft : Config := ⟨"id", .soft, false, true, false, [], none⟩

/-- Same namespace with strict OCCV enabled. -/
def exCfgStrict : Config := ⟨"id", .soft, false, true, true, [], none⟩

/-- Tombstone-delete namespace. -/
def exCfgTomb : Config := ⟨"id", .tombstone, false, true, false, [], none⟩

/-- Stored resource item `A` with a domain attribute and `ItemVersion` 3. -/
def exRowA : Item := [("id", .str "A"), ("color", .str "red"), ("ItemVersion", .num 3)]

/-- State holding just item `A`. -/
def exStA : ApiState := ⟨[exRowA], []⟩

/-- Stored resource item `B` with the domain attributes `color` and `type`. -/
def exRowB : Item := [("id", .str "B"), ("color", .str "red"), ("type", .str "x")]

/-- State holding item `B` and its metadata record. -/
def exStB : ApiState := ⟨[exRowB], [[("id", .str "B-meta"), ("note", .str "m")]]⟩

/-- An already soft-deleted item `D`. -/
def exRowDel : Item := [("id", .str "D"), ("Deleted", .num 1)]

/-- State holding just the already-deleted item `D`. -/
def exStDel : ApiState := ⟨[exRowDel], []⟩

/-- Master item `M`. -/
def exRowM : Item := [("id", .str "M"), ("color", .str "gold")]

/-- Item `C` carrying the master link to `M`. -/
def exRowC : Item := [("id", .str "C"), ("ItemMasterID", .str "M")]

/-- State holding `C` and its master `M`. -/
def exStC : ApiState := ⟨[exRowC, exRowM], []⟩

/-- Table used for the find-path comparison: one item matching `ab = 1` and
one item with `ab = 5` and a non-word-character attribute `a!b = 2`. -/
def exTblF : Table :=
  [[("id", .str "1"), ("ab", .num 1)],
   [("id", .str "2"), ("ab", .num 5), ("a!b", .num 2)]]

/-- Strict-OCCV namespace that also disallows non-item-master writes. -/
def exCfgStrictNoNim : Config := ⟨"id", .soft, false, false, true, [], none⟩

/-! Lemmas about the association-list primitives. -/

@[simp] theorem aget_nil {α : Type} (k : String) : aget ([] : List (String × α)) k = none := rfl

theorem aget_cons {α : Type} (k' : String) (v : α) (rest : List (String × α)) (k : String) :
    aget ((k', v) :: rest) k = if k' = k then some v else aget rest k := rfl

@[simp] theorem aget_aput_self {α : Type} (l : List (String × α)) (k : String) (v : α) :
    aget (aput l k v) k = some v := by
  induction l with
  | nil => simp [aput, aget]
  | cons p rest ih =>
      obtain ⟨k', v'⟩ := p
      by_cases h : k' = k <;> simp [aput, aget, h, ih]

theorem aget_aput_ne {α : Type} (l : List (String × α)) (k k' : String) (v : α)
    (h : k' ≠ k) : aget (aput l k v) k' = aget l k' := by
  have hk : ¬ (k = k') := fun hh => h hh.symm
  induction l with
  | nil => simp [aput, aget, hk]
  | cons p rest ih =>
      obtain ⟨k₀, v₀⟩ := p
      by_cases h₀ : k₀ = k
      · subst h₀
        simp [aput, aget, hk]
      · simp [aput, aget, h₀, ih]

@[simp] theorem aget_arem_self {α : Type} (l : List (String × α)) (k : String) :
    aget (arem l k) k = none := by
  induction l with
  | nil => simp [arem]
  | cons p rest ih =>
      obtain ⟨k₀, v₀⟩ := p
      by_cases h : k₀ = k <;> simp [arem, aget, h, ih]

theorem aget_arem_ne {α : Type} (l : List (String × α)) (k k' : String)
    (h : k' ≠ k) : aget (arem l k) k' = aget l k' := by
  have hk : ¬ (k = k') := fun hh => h hh.symm
  induction l with
  | nil => simp [arem]
  | cons p rest ih =>
      obtain ⟨k₀, v₀⟩ := p
      by_cases h₀ : k₀ = k
      · subst h₀
        simp [arem, aget, hk, ih]
      · simp [arem, aget, h₀, ih]

@[simp] theorem akeys_nil {α : Type} : akeys ([] : List (String × α)) = [] := rfl

@[simp] theorem akeys_cons {α : Type} (k₀ : String) (v₀ : α) (rest : List (String × α)) :
    akeys ((k₀, v₀) :: rest) = k₀ :: akeys rest := rfl

theorem aget_eq_none_iff {α : Type} (l : List (String × α)) (k : String) :
    aget l k = none ↔ k ∉ akeys l := by
  induction l with
  | nil => simp
  | cons p rest ih =>
      obtain ⟨k₀, v₀⟩ := p
      by_cases h : k₀ = k
      · subst h
        simp [aget]
      · have hk : ¬ (k = k₀) := fun hh => h hh.symm
        simp [aget, h, ih, hk]

theorem mem_akeys_arem {α : Type} {l : List (String × α)} {k x : String} :
    x ∈ akeys (arem l k) ↔ x ∈ akeys l ∧ x ≠ k := by
  induction l with
  | nil => simp [arem]
  | cons p rest ih =>
      obtain ⟨k₀, v₀⟩ := p
      by_cases h : k₀ = k
      · subst h
        simp [arem, ih]
        tauto
      · have hx : x = k₀ → x ≠ k := fun hx => hx ▸ h
        simp [arem, h, ih]
        tauto

theorem akeys_arem_sublist {α : Type} (l : List (String × α)) (k : String) :
    List.Sublist (akeys (arem l k)) (akeys l) := by
  induction l with
  | nil => simp [arem]
  | cons p rest ih =>
      obtain ⟨k₀, v₀⟩ := p
      by_cases h : k₀ = k
      · simp only [arem, if_pos h, akeys_cons]
        exact List.Sublist.cons k₀ ih
      · simp only [arem, if_neg h, akeys_cons]
        exact List.Sublist.cons₂ k₀ ih

theorem nodup_akeys_arem {α : Type} {l : List (String × α)} (k : String)
    (h : (akeys l).Nodup) : (akeys (arem l k)).Nodup :=
  List.Nodup.sublist (akeys_arem_sublist l k) h

theorem mem_akeys_aput {α : Type} {l : List (String × α)} {k x : String} {v : α} :
    x ∈ akeys (aput l k v) ↔ x ∈ akeys l ∨ x = k := by
  induction l with
  | nil => simp [aput]
  | cons p rest ih =>
      obtain ⟨k₀, v₀⟩ := p
      by_cases h : k₀ = k
      · subst h
        simp [aput]
        tauto
      · simp [aput, h, ih]
        tauto

theorem aput_fresh {α : Type} {l : List (String × α)} {k : String} (v : α)
    (h : aget l k = none) : aput l k v = l ++ [(k, v)] := by
  induction l with
  | nil => simp [aput]
  | cons p rest ih =>
      obtain ⟨k₀, v₀⟩ := p
      by_cases h₀ : k₀ = k
      · simp [aget, h₀] at h
      · simp [aget, h₀] at h
        simp [aput, h₀, ih h]

/-! Lemmas about applying structural update clauses. -/

theorem aget_applySets_not_mem {it : Item} {sets : List (String × Value)} {k : String}
    (h : k ∉ sets.map Prod.fst) : aget (applySets it sets) k = aget it k := by
  induction sets generalizing it with
  | nil => simp [applySets]
  | cons p rest ih =>
      obtain ⟨k₀, v₀⟩ := p
      rw [List.map_cons] at h
      simp only [List.mem_cons, not_or] at h
      have step : applySets it ((k₀, v₀) :: rest) = applySets (aput it k₀ v₀) rest := rfl
      rw [step, ih h.2, aget_aput_ne _ _ _ _ h.1]

theorem aget_applySets_mem {it : Item} {sets : List (String × Value)} {k : String}
    {v : Value} (hnd : (sets.map Prod.fst).Nodup) (hmem : (k, v) ∈ sets) :
    aget (applySets it sets) k = some v := by
  induction sets generalizing it with
  | nil => simp at hmem
  | cons p rest ih =>
      obtain ⟨k₀, v₀⟩ := p
      simp at hnd
      have step : applySets it ((k₀, v₀) :: rest) = applySets (aput it k₀ v₀) rest := rfl
      rcases List.mem_cons.mp hmem with heq | hmem'
      · simp at heq
        obtain ⟨h₁, h₂⟩ := heq
        subst h₁
        subst h₂
        have hnotin : k ∉ rest.map Prod.fst := by
          intro hc
          simp at hc
          obtain ⟨w, hw⟩ := hc
          exact hnd.1 w hw
        rw [step, aget_applySets_not_mem hnotin, aget_aput_self]
      · rw [step]
        exact ih hnd.2 hmem'

theorem mem_akeys_applySets {it : Item} {sets : List (String × Value)} {x : String} :
    x ∈ akeys (applySets it sets) ↔ x ∈ akeys it ∨ x ∈ sets.map Prod.fst := by
  induction sets generalizing it with
  | nil => simp [applySets]
  | cons p rest ih =>
      obtain ⟨k₀, v₀⟩ := p
      have step : applySets it ((k₀, v₀) :: rest) = applySets (aput it k₀ v₀) rest := rfl
      rw [step, ih]
      simp [mem_akeys_aput]
      tauto

theorem aget_applyRemoves_not_mem {it : Item} {rs : List String} {k : String}
    (h : k ∉ rs) : aget (applyRemoves it rs) k = aget it k := by
  induction rs generalizing it with
  | nil => simp [applyRemoves]
  | cons r rest ih =>
      simp only [List.mem_cons, not_or] at h
      have step : applyRemoves it (r :: rest) = applyRemoves (arem it r) rest := rfl
      rw [step, ih h.2, aget_arem_ne _ _ _ h.1]

theorem aget_applyRemoves_mem {it : Item} {rs : List String} {k : String}
    (h : k ∈ rs) : aget (applyRemoves it rs) k = none := by
  induction rs generalizing it with
  | nil => simp at h
  | cons r rest ih =>
      have step : applyRemoves it (r :: rest) = applyRemoves (arem it r) rest := rfl
      rcases List.mem_cons.mp h with heq | hmem
      · subst heq
        by_cases hm : k ∈ rest
        · rw [step]
          exact ih hm
        · rw [step, aget_applyRemoves_not_mem hm, aget_arem_self]
      · rw [step]
        exact ih hmem

theorem mem_akeys_applyRemoves {it : Item} {rs : List String} {x : String} :
    x ∈ akeys (applyRemoves it rs) ↔ x ∈ akeys it ∧ x ∉ rs := by
  induction rs generalizing it with
  | nil => simp [applyRemoves]
  | cons r rest ih =>
      have step : applyRemoves it (r :: rest) = applyRemoves (arem it r) rest := rfl
      rw [step, ih]
      simp [mem_akeys_arem]
      tauto

theorem aget_applyAdd_ne {it : Item} {k k' : String} {n : Int} (h : k' ≠ k) :
    aget (applyAdd it k n) k' = aget it k' := by
  unfold applyAdd
  cases aget it k with
  | none => exact aget_aput_ne _ _ _ _ h
  | some v => cases v <;> exact aget_aput_ne _ _ _ _ h

theorem mem_akeys_applyAdd {it : Item} {k x : String} {n : Int} :
    x ∈ akeys (applyAdd it k n) ↔ x ∈ akeys it ∨ x = k := by
  unfold applyAdd
  cases aget it k with
  | none => exact mem_akeys_aput
  | some v => cases v <;> exact mem_akeys_aput

/-! Lemmas about the table primitives. -/

theorem tgetRow_tputRow {tbl : Table} {pkName : String} {key : Value} {it newIt : Item}
    (h : tgetRow tbl pkName key = some it) (hnew : aget newIt pkName = some key) :
    tgetRow (tputRow tbl pkName key newIt) pkName key = some newIt := by
  induction tbl with
  | nil => simp [tgetRow] at h
  | cons row rest ih =>
      by_cases hr : aget row pkName == some key
      · simp [tputRow, hr, tgetRow, List.find?, hnew]
      · simp only [tgetRow, List.find?, hr] at h
        have := ih (by simpa [tgetRow] using h)
        simpa [tputRow, hr, tgetRow, List.find?] using this

theorem tgetRow_pk {tbl : Table} {pkName : String} {key : Value} {it : Item}
    (h : tgetRow tbl pkName key = some it) : aget it pkName = some key := by
  have h2 := List.find?_some (p := fun row => aget row pkName == some key)
    (by simpa [tgetRow] using h)
  simpa using h2

/-! Lemmas about the merged expression-attribute dictionaries. -/

theorem aget_dmerge_not_mem {α : Type} {base l : List (String × α)} {k : String}
    (h : ∀ p ∈ l, p.1 ≠ k) : aget (dmerge base l) k = aget base k := by
  induction l generalizing base with
  | nil => simp [dmerge]
  | cons p rest ih =>
      obtain ⟨k₀, v₀⟩ := p
      have step : dmerge base ((k₀, v₀) :: rest) = dmerge (aput base k₀ v₀) rest := rfl
      rw [step, ih (fun q hq => h q (by simp [hq])),
        aget_aput_ne _ _ _ _ (Ne.symm (h (k₀, v₀) (by simp)))]

theorem aget_dmerge_mem {α : Type} {base l : List (String × α)} {k : String} {v : α}
    (hnd : (l.map Prod.fst).Nodup) (hmem : (k, v) ∈ l) :
    aget (dmerge base l) k = some v := by
  induction l generalizing base with
  | nil => simp at hmem
  | cons p rest ih =>
      obtain ⟨k₀, v₀⟩ := p
      simp at hnd
      have step : dmerge base ((k₀, v₀) :: rest) = dmerge (aput base k₀ v₀) rest := rfl
      rcases List.mem_cons.mp hmem with heq | hmem'
      · simp at heq
        obtain ⟨h₁, h₂⟩ := heq
        subst h₁
        subst h₂
        have hno : ∀ p ∈ rest, p.1 ≠ k := by
          intro q hq hc
          have hq2 : (q.1, q.2) ∈ rest := by simpa using hq
          rw [hc] at hq2
          exact hnd.1 q.2 hq2
        rw [step, aget_dmerge_not_mem hno, aget_aput_self]
      · rw [step]
        exact ih hnd.2 hmem'

/-! Lemmas about the rendered filter parts and the find paths. -/

theorem str_append_cancel (p a b : String) (h : p ++ a = p ++ b) : a = b := by
  obtain ⟨pd⟩ := p
  obtain ⟨ad⟩ := a
  obtain ⟨bd⟩ := b
  simp only [HAppend.hAppend, Append.append, String.append] at h
  injection h with h'
  exact congrArg String.mk (List.append_cancel_left h')

theorem gfe_fold (fl : List (String × Value)) (fp : FilterParts) :
    fl.foldl
      (fun fp p =>
        let tok := make_ddb_expressionval p.1
        ⟨fp.conj ++ [("#" ++ tok, ":" ++ tok)],
         aput fp.names ("#" ++ tok) p.1,
         aput fp.values (":" ++ tok) p.2⟩) fp
    = ⟨fp.conj ++ fl.map (fun p =>
          ("#" ++ make_ddb_expressionval p.1, ":" ++ make_ddb_expressionval p.1)),
       dmerge fp.names (fl.map (fun p => ("#" ++ make_ddb_expressionval p.1, p.1))),
       dmerge fp.values (fl.map (fun p => (":" ++ make_ddb_expressionval p.1, p.2)))⟩ := by
  induction fl generalizing fp with
  | nil => simp [dmerge]
  | cons p rest ih =>
      simp only [List.foldl_cons, List.map_cons]
      rw [ih]
      simp [dmerge, List.foldl_cons]

theorem gfe_eq (fl : List (String × Value)) :
    get_filter_expression fl
    = ⟨fl.map (fun p =>
          ("#" ++ make_ddb_expressionval p.1, ":" ++ make_ddb_expressionval p.1)),
       dmerge [] (fl.map (fun p => ("#" ++ make_ddb_expressionval p.1, p.1))),
       dmerge [] (fl.map (fun p => (":" ++ make_ddb_expressionval p.1, p.2)))⟩ := by
  simpa [get_filter_expression] using gfe_fold fl ⟨[], [], []⟩

theorem evalFE_conjFE (n : List (String × String)) (v : List (String × Value))
    (conj : List (String × String)) (it : Item) (h : conj ≠ []) :
    evalFE n v (conjFE conj) it
    = conj.all (fun p => evalFE n v (.tokEq p.1 p.2) it) := by
  induction conj with
  | nil => cases h rfl
  | cons p rest ih =>
      cases rest with
      | nil => simp [conjFE]
      | cons q rest' =>
          show evalFE n v (.conj (.tokEq p.1 p.2) (conjFE (q :: rest'))) it = _
          rw [show evalFE n v (.conj (.tokEq p.1 p.2) (conjFE (q :: rest'))) it
              = (evalFE n v (.tokEq p.1 p.2) it && evalFE n v (conjFE (q :: rest')) it)
              from rfl,
            ih (by simp)]
          simp

theorem find_index_attr_spec {indexes : List String}
    {criteria : List (String × Value)} {k : String} {v : Value}
    {rest : List (String × Value)}
    (h : find_index_attr indexes criteria = some (k, v, rest)) :
    ∃ pre post, criteria = pre ++ (k, v) :: post ∧ rest = pre ++ post := by
  induction criteria generalizing rest with
  | nil => simp [find_index_attr] at h
  | cons p cr ih =>
      obtain ⟨k₀, v₀⟩ := p
      by_cases hm : indexes.contains k₀ ∨ k₀ = ITEM_MASTER_ID
      · rw [find_index_attr, if_pos hm] at h
        simp at h
        obtain ⟨hk, hv, hr⟩ := h
        subst hk
        subst hv
        subst hr
        exact ⟨[], cr, rfl, rfl⟩
      · rw [find_index_attr, if_neg hm] at h
        cases hfi : find_index_attr indexes cr with
        | none => rw [hfi] at h; simp at h
        | some t =>
            obtain ⟨k', v', rest'⟩ := t
            rw [hfi] at h
            simp at h
            obtain ⟨hk, hv, hr⟩ := h
            subst hk
            subst hv
            subst hr
            obtain ⟨pre, post, hc, hr'⟩ := ih hfi
            exact ⟨(k₀, v₀) :: pre, post, by simp [hc], by simp [hr']⟩

theorem dmerge_append {α : Type} {base l : List (String × α)}
    (h : ∀ p ∈ l, aget base p.1 = none) (hnd : (l.map Prod.fst).Nodup) :
    dmerge base l = base ++ l := by
  induction l generalizing base with
  | nil => simp [dmerge]
  | cons p rest ih =>
      obtain ⟨k, v⟩ := p
      simp only [List.map_cons, List.nodup_cons] at hnd
      have step : dmerge base ((k, v) :: rest) = dmerge (aput base k v) rest := rfl
      have hput : aput base k v = base ++ [(k, v)] :=
        aput_fresh v (h (k, v) (by simp))
      have hrest : ∀ p ∈ rest, aget (aput base k v) p.1 = none := by
        intro q hq
        have hne : q.1 ≠ k := by
          intro hc
          exact hnd.1 (by simpa [hc] using List.mem_map_of_mem Prod.fst hq)
        rw [aget_aput_ne _ _ _ _ hne]
        exact h q (by simp [hq])
      rw [step, ih hrest hnd.2, hput]
      simp

theorem dmerge_nil {α : Type} (l : List (String × α))
    (hnd : (l.map Prod.fst).Nodup) : dmerge [] l = l := by
  have h := @dmerge_append α ([] : List (String × α)) l (fun p _ => rfl) hnd
  simpa using h

theorem nodup_prefixed (pre : String) (l : List String) (h : l.Nodup) :
    (l.map (fun s => pre ++ s)).Nodup :=
  h.map (fun a b hh => str_append_cancel pre a b hh)

theorem list_all_congr {α : Type} {l : List α} {p q : α → Bool}
    (h : ∀ x ∈ l, p x = q x) : l.all p = l.all q := by
  induction l with
  | nil => rfl
  | cons x rest ih =>
      simp only [List.all_cons]
      rw [h x (by simp), ih (fun y hy => h y (by simp [hy]))]

theorem list_all_map {α β : Type} (l : List α) (f : α → β) (p : β → Bool) :
    (l.map f).all p = l.all (fun x => p (f x)) := by
  induction l with
  | nil => rfl
  | cons x rest ih => simp only [List.map_cons, List.all_cons, ih]

theorem evalFE_filter_full (fl : List (String × Value)) (it : Item)
    (hnd : (fl.map (fun p => make_ddb_expressionval p.1)).Nodup)
    (hdel : ∀ p ∈ fl, make_ddb_expressionval p.1 ≠ "deleted")
    (hne : fl ≠ []) :
    evalFE (dmerge delNames (get_filter_expression fl).names)
      (dmerge delValues (get_filter_expression fl).values)
      (.conj .delFilter (conjFE (get_filter_expression fl).conj)) it
    = (notDeletedB it && fl.all (fun p => aget it p.1 == some p.2)) := by
  have hndN : ((fl.map (fun p => ("#" ++ make_ddb_expressionval p.1, p.1))).map
      Prod.fst).Nodup := by
    have hcomp : (fl.map (fun p => ("#" ++ make_ddb_expressionval p.1, p.1))).map
        Prod.fst = (fl.map (fun p => make_ddb_expressionval p.1)).map
          (fun s => "#" ++ s) := by
      simp [List.map_map]
    rw [hcomp]
    exact nodup_prefixed "#" _ hnd
  have hndV : ((fl.map (fun p => (":" ++ make_ddb_expressionval p.1, p.2))).map
      Prod.fst).Nodup := by
    have hcomp : (fl.map (fun p => (":" ++ make_ddb_expressionval p.1, p.2))).map
        Prod.fst = (fl.map (fun p => make_ddb_expressionval p.1)).map
          (fun s => ":" ++ s) := by
      simp [List.map_map]
    rw [hcomp]
    exact nodup_prefixed ":" _ hnd
  have hNames : (get_filter_expression fl).names
      = fl.map (fun p => ("#" ++ make_ddb_expressionval p.1, p.1)) := by
    have h := congrArg FilterParts.names (gfe_eq fl)
    simp only at h
    rw [h]
    exact dmerge_nil _ hndN
  have hValues : (get_filter_expression fl).values
      = fl.map (fun p => (":" ++ make_ddb_expressionval p.1, p.2)) := by
    have h := congrArg FilterParts.values (gfe_eq fl)
    simp only at h
    rw [h]
    exact dmerge_nil _ hndV
  have hConj : (get_filter_expression fl).conj
      = fl.map (fun p =>
          ("#" ++ make_ddb_expressionval p.1, ":" ++ make_ddb_expressionval p.1)) := by
    have h := congrArg FilterParts.conj (gfe_eq fl)
    simp only at h
    simpa using h
  have hgetN : aget (dmerge delNames (get_filter_expression fl).names) "#deleted"
      = some DELETED := by
    rw [hNames, aget_dmerge_not_mem]
    · rfl
    · intro p hp hc
      obtain ⟨q, hq, rfl⟩ := List.mem_map.mp hp
      have : "#" ++ make_ddb_expressionval q.1 = "#" ++ "deleted" := by
        rw [show ("#" ++ "deleted" : String) = "#deleted" from rfl]
        exact hc
      exact hdel q hq (str_append_cancel _ _ _ this)
  have hgetV : aget (dmerge delValues (get_filter_expression fl).values) ":deleted"
      = some (Value.num 1) := by
    rw [hValues, aget_dmerge_not_mem]
    · rfl
    · intro p hp hc
      obtain ⟨q, hq, rfl⟩ := List.mem_map.mp hp
      have : ":" ++ make_ddb_expressionval q.1 = ":" ++ "deleted" := by
        rw [show (":" ++ "deleted" : String) = ":deleted" from rfl]
        exact hc
      exact hdel q hq (str_append_cancel _ _ _ this)
  have hDelPart : evalFE (dmerge delNames (get_filter_expression fl).names)
      (dmerge delValues (get_filter_expression fl).values) .delFilter it
      = notDeletedB it := by
    simp only [evalFE]
    rw [hgetN, hgetV]
    rfl
  have hTok : ∀ q ∈ fl,
      evalFE (dmerge delNames (get_filter_expression fl).names)
        (dmerge delValues (get_filter_expression fl).values)
        (.tokEq ("#" ++ make_ddb_expressionval q.1) (":" ++ make_ddb_expressionval q.1)) it
      = (aget it q.1 == some q.2) := by
    intro q hq
    have hmemN : ("#" ++ make_ddb_expressionval q.1, q.1)
        ∈ fl.map (fun p => ("#" ++ make_ddb_expressionval p.1, p.1)) := by
      have := List.mem_map_of_mem (fun p => ("#" ++ make_ddb_expressionval p.1, p.1)) hq
      simpa using this
    have hmemV : (":" ++ make_ddb_expressionval q.1, q.2)
        ∈ fl.map (fun p => (":" ++ make_ddb_expressionval p.1, p.2)) := by
      have := List.mem_map_of_mem (fun p => (":" ++ make_ddb_expressionval p.1, p.2)) hq
      simpa using this
    have hN : aget (dmerge delNames (get_filter_expression fl).names)
        ("#" ++ make_ddb_expressionval q.1) = some q.1 := by
      rw [hNames]
      exact aget_dmerge_mem hndN hmemN
    have hV : aget (dmerge delValues (get_filter_expression fl).values)
        (":" ++ make_ddb_expressionval q.1) = some q.2 := by
      rw [hValues]
      exact aget_dmerge_mem hndV hmemV
    simp only [evalFE]
    rw [hN, hV]
  have hConjNe : (get_filter_expression fl).conj ≠ [] := by
    rw [hConj]
    simpa using hne
  show (evalFE _ _ .delFilter it && evalFE _ _ (conjFE (get_filter_expression fl).conj) it) = _
  rw [hDelPart, evalFE_conjFE _ _ _ _ hConjNe, hConj, list_all_map]
  congr 1
  apply list_all_congr
  intro q hq
  exact hTok q hq

/-! Claim theorems. -/

/-- C1: On a strict-OCCV namespace, every resource update that supplies an
`ItemVersion` — stale (2, against stored 3) or matching (3) — crashes with
`KeyError` on the read of `item[ItemVersion]` at `dynamo_data_api.py` line
693, after `_sanitise_item_lastupdate_info` has removed that key: the stored
item is unchanged, but neither the promised `ConstraintViolation` (stale case)
nor the promised successful increment to version 4 (matching case) is
reachable. -/
theorem C1_strict_occv_supplied_version_raises_keyerror :
    update_item exCfgStrict exStA "c" "t" "A"
      { resource := some [("color", .str "blue")], itemVersion := some 3 }
      = (exStA, .error (.keyError ITEM_VERSION)) ∧
    update_item exCfgStrict exStA "c" "t" "A"
      { resource := some [("color", .str "blue")], itemVersion := some 2 }
      = (exStA, .error (.keyError ITEM_VERSION)) :=
  ⟨rfl, rfl⟩

/-- C2: The composed-condition paths of `_do_update` crash before reaching the
store.  Supplying caller constraints invokes the rendering helper without its
required second positional argument (`dynamo_data_api.py` line 685), a
`TypeError`; and on a namespace with both the item-master condition and strict
OCCV active, the string join of the condition list hits the boto3 condition
object (line 697), again a `TypeError`.  In both cases the stored item is
unchanged and no `ConstraintViolation` semantics are applied. -/
theorem C2_condition_composition_raises_typeerror :
    update_item exCfgSoft exStA "c" "t" "A"
      { resource := some [("color", .str "blue")],
        constraints := some [("color", .str "red")] }
      = (exStA, .error .typeError) ∧
    update_item exCfgStrictNoNim exStA "c" "t" "A"
      { resource := some [("color", .str "blue")] }
      = (exStA, .error .typeError) :=
  ⟨rfl, rfl⟩

/-- C5: A soft delete of item `A` succeeds, but the subsequent restore raises
`InvalidArguments` and leaves the stored item unchanged — still carrying
`Deleted = 1` — because the restore condition and assignment use the hardcoded
lowercase attribute name `deleted` while the delete wrote `Deleted`. -/
theorem C5_soft_delete_then_restore_raises :
    (sdelete exCfgSoft exStA "A" "c" "t" none none none).2 = .ok true ∧
    restore exCfgSoft
        (sdelete exCfgSoft exStA "A" "c" "t" none none none).1.resourceTable
        "A" "c" "t"
      = ((sdelete exCfgSoft exStA "A" "c" "t" none none none).1.resourceTable,
         .error .invalidArguments) ∧
    aget ((tgetRow
        (sdelete exCfgSoft exStA "A" "c" "t" none none none).1.resourceTable
        "id" (.str "A")).getD []) DELETED = some (.num 1) :=
  ⟨rfl, rfl, rfl⟩

/-- C3 counterexample: tombstone-deleting item `B`, which carries the domain
attribute `type`, leaves `type` in the stored record — `type` is neither the
primary key nor a reserved field, so the record does not contain only the
primary key and reserved fields as claimed. -/
theorem C3_counterexample :
    (sdelete exCfgTomb exStB "B" "c" "t" none none none).2 = .ok true ∧
    aget ((tgetRow
        (sdelete exCfgTomb exStB "B" "c" "t" none none none).1.resourceTable
        "id" (.str "B")).getD []) "type" = some (.str "x") ∧
    aget ((tgetRow
        (sdelete exCfgTomb exStB "B" "c" "t" none none none).1.resourceTable
        "id" (.str "B")).getD []) DELETED = some (.num 1) ∧
    aget ((tgetRow
        (sdelete exCfgTomb exStB "B" "c" "t" none none none).1.resourceTable
        "id" (.str "B")).getD []) TOMBSTONED = some (.boolean true) ∧
    ("type" : String) ∉ ["id", DELETED, TOMBSTONED, ITEM_MASTER_ID,
      ITEM_VERSION, LAST_UPDATE_DATE, LAST_UPDATED_BY, LAST_UPDATE_ACTION] :=
  ⟨rfl, rfl, rfl, rfl, by decide⟩

/-- C4 counterexample: in tombstone mode, a whole-item delete of the
already-deleted item `D` raises `ResourceNotFound` instead of returning
`modified = false`. -/
theorem C4_counterexample :
    (sdelete exCfgTomb exStDel "D" "c" "t" none none none).2
      = .error .resourceNotFound :=
  rfl

/-- C6 counterexample: with `ab` a configured index, the find request whose
only criterion is `ab = 1` takes the index path and fails with a malformed
filter expression, while the scan with the same criterion returns the matching
item; and for criteria `ab = 1, a!b = 2` — whose keys collide after
sanitisation — the index path returns nothing while the scan returns the item
with `ab = 5, a!b = 2`.  In both cases the index path differs from the scan. -/
theorem C6_counterexample :
    find_items ["ab"] exTblF [("ab", .num 1)] = .error .validation ∧
    perform_scan exTblF (some [("ab", .num 1)])
      = .ok [[("id", .str "1"), ("ab", .num 1)]] ∧
    find_items ["ab"] exTblF [("ab", .num 1), ("a!b", .num 2)] = .ok [] ∧
    perform_scan exTblF (some [("ab", .num 1), ("a!b", .num 2)])
      = .ok [[("id", .str "2"), ("ab", .num 5), ("a!b", .num 2)]] :=
  ⟨rfl, rfl, rfl, rfl⟩

/-- C8 counterexample: a get of item `C` (which links to master `M`) with the
master option `prefer` returns only the master — the requested item is absent
from the response, contradicting the claim that it is still returned under its
own key. -/
theorem C8_counterexample :
    api_get exCfgSoft exStC "C" (some "prefer")
      = .ok ⟨none, some ⟨exRowM, none⟩⟩ :=
  rfl

/-- C8 amended: for a gettable item that carries a master link to a gettable
master, a get with no master option returns only the item; with `include` it
returns the item and the master; with `prefer` it returns only the master in
the master slot and omits the requested item from the response. -/
theorem C8_master_option_resolution
    (cfg : Config) (st : ApiState) (id mid : String) (sit msit : SItem)
    (h1 : storage_get cfg st id false = .ok sit)
    (h2 : aget sit.resource ITEM_MASTER_ID = some (.str mid))
    (h3 : storage_get cfg st mid false = .ok msit) :
    api_get cfg st id none = .ok ⟨some sit, none⟩ ∧
    api_get cfg st id (some "include") = .ok ⟨some sit, some msit⟩ ∧
    api_get cfg st id (some "prefer") = .ok ⟨none, some msit⟩ := by
  have hinc : strLower "include" = "include" := rfl
  have hpref : strLower "prefer" = "prefer" := rfl
  refine ⟨?_, ?_, ?_⟩ <;>
    simp only [api_get, h1, h2, Option.map_some, Option.map_none, hinc, hpref,
      valueAsId, Option.getD_some, Option.isSome_some, Option.isNone_some,
      Option.isNone_none, Option.isSome_none, h3] <;>
    simp [hinc, hpref]

/-- C8 witness: the three master-option behaviours at the concrete state
holding item `C` linked to master `M`. -/
theorem C8_master_option_resolution_witness :
    api_get exCfgSoft exStC "C" none = .ok ⟨some ⟨exRowC, none⟩, none⟩ ∧
    api_get exCfgSoft exStC "C" (some "include")
      = .ok ⟨some ⟨exRowC, none⟩, some ⟨exRowM, none⟩⟩ ∧
    api_get exCfgSoft exStC "C" (some "prefer")
      = .ok ⟨none, some ⟨exRowM, none⟩⟩ :=
  C8_master_option_resolution exCfgSoft exStC "C" "M" ⟨exRowC, none⟩
    ⟨exRowM, none⟩ rfl rfl rfl

/-- C10: removing the item master of a visible stored item with no stored
`ItemMasterID` returns `true` without touching the state, whatever master
value the caller asserts; and an `InvalidArguments` outcome can only arise
when a stored master exists and differs from the asserted value. -/
theorem C10_remove_item_master_no_stored_master
    (cfg : Config) (st : ApiState) (caller now id : String)
    (asserted : Option Value) (row : Item)
    (hrow : tgetRow st.resourceTable cfg.pkName (.str id) = some row)
    (hvis : aget row DELETED = none) :
    (aget row ITEM_MASTER_ID = none →
      item_master_delete cfg st caller now (some id) asserted = (st, .ok true)) ∧
    ((item_master_delete cfg st caller now (some id) asserted).2
        = .error .invalidArguments →
      ∃ cm, aget row ITEM_MASTER_ID = some cm ∧ some cm ≠ asserted) := by
  have hfetch : fetch_item st.resourceTable cfg.pkName id false = some row := by
    simp [fetch_item, hrow, hvis]
  have hget : storage_get cfg st id false = .ok ⟨row, fetch_meta cfg st id⟩ := by
    simp [storage_get, hfetch]
  constructor
  · intro hm
    simp [item_master_delete, hget, hm]
  · intro hc
    rcases hm : aget row ITEM_MASTER_ID with _ | cm
    · simp [item_master_delete, hget, hm] at hc
    · by_cases he : some cm = asserted
      · exfalso
        have hcs : containsSub (String.intercalate "," [ITEM_MASTER_ID]) "#del"
            = false := rfl
        simp only [item_master_delete, hget, hm] at hc
        rw [if_neg (by simpa using he)] at hc
        simp only [remove_resource_attributes, simple_update, hcs] at hc
        rw [if_neg Bool.false_ne_true] at hc
        cases h' : ddbUpdateItem st.resourceTable cfg.pkName (Value.str id)
            (decorate ⟨[], [ITEM_MASTER_ID], []⟩ caller now ACTION_REMOVE_ATTRIBUTE)
            none with
        | ok p => rw [h'] at hc; simp at hc
        | error e =>
            rw [h'] at hc
            cases e <;> simp at hc
      · exact ⟨cm, rfl, he⟩

/-- C10 witness: removing the item master of item `M`, which has no stored
master link, with a mismatching asserted value returns `true` and leaves the
state unchanged. -/
theorem C10_remove_item_master_no_stored_master_witness :
    item_master_delete exCfgSoft ⟨[exRowM], []⟩ "c" "t" (some "M")
      (some (.str "Z")) = (⟨[exRowM], []⟩, .ok true) :=
  (C10_remove_item_master_no_stored_master exCfgSoft ⟨[exRowM], []⟩ "c" "t" "M"
    (some (.str "Z")) exRowM rfl rfl).1 rfl

/-- C7: a general update whose resource payload names `ItemMasterID` always
fails — with `InvalidArguments` whenever no metadata document precedes it —
and never touches the resource table; an attribute-removal delete naming
`ItemMasterID` is rejected with `InvalidArguments` and leaves the whole state
unchanged. -/
theorem C7_item_master_field_writes_rejected :
    (∀ (cfg : Config) (st : ApiState) (caller now id : String)
        (req : UpdateRequest) (r : Item),
      req.resource = some r → (aget r ITEM_MASTER_ID).isSome →
      (update_item cfg st caller now id req).1.resourceTable = st.resourceTable ∧
      (∃ e, (update_item cfg st caller now id req).2 = .error e) ∧
      (req.metadata = none →
        (update_item cfg st caller now id req).2 = .error .invalidArguments)) ∧
    (∀ (cfg : Config) (st : ApiState) (caller now id : String)
        (ra : List String) (ma : Option (List String)) (ov : Option DeleteMode),
      ra.contains ITEM_MASTER_ID →
      sdelete cfg st id caller now (some ra) ma ov
        = (st, .error .invalidArguments)) := by
  constructor
  · intro cfg st caller now id req r hres him
    have htop : ¬ ¬ (req.metadata.isSome ∨ req.resource.isSome ∨ req.hasReferences) := by
      simp [hres]
    have him1 : aget (if aget r cfg.pkName = none
        then aput r cfg.pkName (Value.str id) else r) ITEM_MASTER_ID ≠ none := by
      by_cases hpk : aget r cfg.pkName = none
      · rw [if_pos hpk]
        by_cases hk : ITEM_MASTER_ID = cfg.pkName
        · rw [hk, aget_aput_self]
          simp
        · rw [aget_aput_ne _ _ _ _ hk]
          simpa [Option.isSome_iff_ne_none] using him
      · rw [if_neg hpk]
        simpa [Option.isSome_iff_ne_none] using him
    cases hmeta : req.metadata with
    | some m =>
        cases hdo2 : (do_update cfg st.metadataTable (get_metaid id) m caller now
            none false none).2 with
        | error e =>
            have hgoal : update_item cfg st caller now id req
                = (⟨st.resourceTable, (do_update cfg st.metadataTable
                    (get_metaid id) m caller now none false none).1⟩, .error e) := by
              simp [update_item, hres, hmeta, hdo2]
            rw [hgoal]
            exact ⟨rfl, ⟨e, rfl⟩,
              fun hm => Option.noConfusion hm⟩
        | ok w =>
            have hgoal : update_item cfg st caller now id req
                = (⟨st.resourceTable, (do_update cfg st.metadataTable
                    (get_metaid id) m caller now none false none).1⟩,
                   .error .invalidArguments) := by
              simp [update_item, hres, hmeta, hdo2]
              intro hnone
              exact absurd hnone him1
            rw [hgoal]
            exact ⟨rfl, ⟨.invalidArguments, rfl⟩,
              fun hm => Option.noConfusion hm⟩
    | none =>
        have hgoal : update_item cfg st caller now id req
            = (st, .error .invalidArguments) := by
          simp [update_item, hres, hmeta]
          intro hnone
          exact absurd hnone him1
        rw [hgoal]
        exact ⟨rfl, ⟨.invalidArguments, rfl⟩, fun _ => rfl⟩
  · intro cfg st caller now id ra ma ov hra
    have hmem : ITEM_MASTER_ID ∈ ra := by simpa using hra
    have hlen : ra.length > 0 :=
      List.length_pos.mpr (List.ne_nil_of_mem hmem)
    simp only [sdelete]
    rw [if_pos hlen, if_pos hra]

/-- C7 witness: updating item `C` with a resource payload containing
`ItemMasterID`, and removing the `ItemMasterID` attribute through delete, are
both rejected with `InvalidArguments` and change nothing. -/
theorem C7_item_master_field_writes_rejected_witness :
    (update_item exCfgSoft exStC "c" "t" "C"
        { resource := some [("ItemMasterID", .str "Z")] }).1.resourceTable
      = exStC.resourceTable ∧
    (update_item exCfgSoft exStC "c" "t" "C"
        { resource := some [("ItemMasterID", .str "Z")] }).2
      = .error .invalidArguments ∧
    sdelete exCfgSoft exStC "C" "c" "t" (some ["ItemMasterID"]) none none
      = (exStC, .error .invalidArguments) := by
  have h := C7_item_master_field_writes_rejected
  have ha := h.1 exCfgSoft exStC "c" "t" "C"
    { resource := some [("ItemMasterID", .str "Z")] }
    [("ItemMasterID", .str "Z")] rfl (by decide)
  exact ⟨ha.1, ha.2.2 rfl, h.2 exCfgSoft exStC "c" "t" "C" ["ItemMasterID"]
    none none (by decide)⟩

/-- C9: a combined update carrying both a metadata document and a resource
payload that is rejected (here: it names `ItemMasterID`) is not atomic — the
metadata write has already been applied when the resource part raises
`InvalidArguments`, and it is not rolled back: the final metadata table is the
one produced by the metadata update while the resource table is untouched. -/
theorem C9_metadata_written_before_resource_rejection
    (cfg : Config) (st : ApiState) (caller now id : String)
    (req : UpdateRequest) (m r : Item)
    (hmeta : req.metadata = some m)
    (hres : req.resource = some r)
    (him : (aget r ITEM_MASTER_ID).isSome)
    (hok : (do_update cfg st.metadataTable (get_metaid id) m caller now none
      false none).2.isOk) :
    (update_item cfg st caller now id req).2 = .error .invalidArguments ∧
    (update_item cfg st caller now id req).1.metadataTable
      = (do_update cfg st.metadataTable (get_metaid id) m caller now none
          false none).1 ∧
    (update_item cfg st caller now id req).1.resourceTable
      = st.resourceTable := by
  have him1 : aget (if aget r cfg.pkName = none
      then aput r cfg.pkName (Value.str id) else r) ITEM_MASTER_ID ≠ none := by
    by_cases hpk : aget r cfg.pkName = none
    · rw [if_pos hpk]
      by_cases hk : ITEM_MASTER_ID = cfg.pkName
      · rw [hk, aget_aput_self]
        simp
      · rw [aget_aput_ne _ _ _ _ hk]
        simpa [Option.isSome_iff_ne_none] using him
    · rw [if_neg hpk]
      simpa [Option.isSome_iff_ne_none] using him
  cases hdo2 : (do_update cfg st.metadataTable (get_metaid id) m caller now none
      false none).2 with
  | error e =>
      rw [hdo2] at hok
      simp [Except.isOk, Except.toBool] at hok
  | ok w =>
      have hgoal : update_item cfg st caller now id req
          = (⟨st.resourceTable, (do_update cfg st.metadataTable
              (get_metaid id) m caller now none false none).1⟩,
             .error .invalidArguments) := by
        simp [update_item, hres, hmeta, hdo2]
        intro hnone
        exact absurd hnone him1
      rw [hgoal]
      exact ⟨rfl, rfl, rfl⟩

/-- C9 witness: the combined update of item `B` writes the metadata record
(visibly changing the metadata table) and then fails with `InvalidArguments`
on the resource payload naming `ItemMasterID`, leaving the resource table
unchanged. -/
theorem C9_metadata_written_before_resource_rejection_witness :
    (update_item exCfgSoft exStB "c" "t" "B"
        { metadata := some [("note", .str "n2")],
          resource := some [("ItemMasterID", .str "M")] }).2
      = .error .invalidArguments ∧
    (update_item exCfgSoft exStB "c" "t" "B"
        { metadata := some [("note", .str "n2")],
          resource := some [("ItemMasterID", .str "M")] }).1.metadataTable
      = (do_update exCfgSoft exStB.metadataTable (get_metaid "B")
          [("note", .str "n2")] "c" "t" none false none).1 ∧
    (update_item exCfgSoft exStB "c" "t" "B"
        { metadata := some [("note", .str "n2")],
          resource := some [("ItemMasterID", .str "M")] }).1.resourceTable
      = exStB.resourceTable ∧
    (update_item exCfgSoft exStB "c" "t" "B"
        { metadata := some [("note", .str "n2")],
          resource := some [("ItemMasterID", .str "M")] }).1.metadataTable
      ≠ exStB.metadataTable := by
  have h := C9_metadata_written_before_resource_rejection exCfgSoft exStB "c"
    "t" "B" { metadata := some [("note", .str "n2")],
              resource := some [("ItemMasterID", .str "M")] }
    [("note", .str "n2")] [("ItemMasterID", .str "M")] rfl rfl rfl rfl
  exact ⟨h.1, h.2.1, h.2.2, by decide⟩

theorem simple_update_already_deleted (cfg : Config) (tbl : Table)
    (id : String) (sets : List (String × Value)) (removes : List String)
    (caller now action : String) (row : Item)
    (hrow : tgetRow tbl cfg.pkName (.str id) = some row)
    (hdel : aget row DELETED ≠ none)
    (hnodup : (updTargets (decorate ⟨sets, removes, []⟩ caller now action)).Nodup) :
    simple_update cfg tbl id sets removes true caller now action
      = (tbl, .ok false) := by
  have hdd : ddbUpdateItem tbl cfg.pkName (.str id)
      (decorate ⟨sets, removes, []⟩ caller now action)
      (some (.notExists DELETED)) = .error .conditionalCheckFailed := by
    simp only [ddbUpdateItem]
    rw [if_neg (not_not_intro hnodup), hrow]
    have hcond : evalCond (.notExists DELETED) ((some row).getD []) = false := by
      simp only [Option.getD_some, evalCond]
      cases hx : aget row DELETED with
      | none => exact absurd hx hdel
      | some v => rfl
    rw [hcond]
    simp
  simp [simple_update, hdd]

/-- C4 amended: deleting an already-deleted item (stored `Deleted = 1`) with a
whole-item delete returns `modified = false` without error in soft-delete
mode and leaves the state unchanged; in tombstone mode the deleted item is
invisible to the pre-delete fetch and the delete raises `ResourceNotFound`
instead, leaving the resource table unchanged. -/
theorem C4_already_deleted_delete_by_mode
    (cfg : Config) (st : ApiState) (id caller now : String) (row : Item)
    (hrow : tgetRow st.resourceTable cfg.pkName (.str id) = some row)
    (hdel : aget row DELETED = some (.num 1)) :
    (cfg.deleteMode = .soft →
      sdelete cfg st id caller now none none none = (st, .ok false)) ∧
    (cfg.deleteMode = .tombstone →
      (sdelete cfg st id caller now none none none).2 = .error .resourceNotFound ∧
      (sdelete cfg st id caller now none none none).1.resourceTable
        = st.resourceTable) := by
  constructor
  · intro hmode
    have htargets : (updTargets (decorate ⟨[(DELETED, Value.num 1)], [], []⟩
        caller now ACTION_DELETE)) = [DELETED, LAST_UPDATE_DATE,
        LAST_UPDATED_BY, LAST_UPDATE_ACTION, ITEM_VERSION] := rfl
    have hsu := simple_update_already_deleted cfg st.resourceTable id
      [(DELETED, Value.num 1)] [] caller now ACTION_DELETE row hrow
      (by rw [hdel]; simp) (by rw [htargets]; decide)
    simp only [sdelete, delete_resource, hmode]
    simp [hsu]
  · intro hmode
    have hfetch : fetch_item st.resourceTable cfg.pkName id false = none := by
      simp [fetch_item, hrow, hdel]
    constructor <;>
      · simp only [sdelete, delete_resource, hmode]
        simp [hfetch]

/-- C4 witness: deleting the already-deleted item `D` returns `false` in the
soft-delete namespace and raises `ResourceNotFound` in the tombstone
namespace. -/
theorem C4_already_deleted_delete_by_mode_witness :
    sdelete exCfgSoft exStDel "D" "c" "t" none none none
      = (exStDel, .ok false) ∧
    (sdelete exCfgTomb exStDel "D" "c" "t" none none none).2
      = .error .resourceNotFound :=
  ⟨(C4_already_deleted_delete_by_mode exCfgSoft exStDel "D" "c" "t" exRowDel
      rfl rfl).1 rfl,
   ((C4_already_deleted_delete_by_mode exCfgTomb exStDel "D" "c" "t" exRowDel
      rfl rfl).2 rfl).1⟩

theorem ddbUpdateItem_success {tbl : Table} {pkName : String} {key : Value}
    {u : UpdExpr} {cond : Option Cond} {row : Item}
    (hnodup : (updTargets u).Nodup)
    (hrow : tgetRow tbl pkName key = some row)
    (hcond : (match cond with
      | none => true
      | some c => evalCond c row) = true)
    (hadds : addsValid row u.adds = true) :
    ddbUpdateItem tbl pkName key u cond
      = .ok (tputRow tbl pkName key
          (applyAdds (applyRemoves (applySets row u.sets) u.removes) u.adds),
        applyAdds (applyRemoves (applySets row u.sets) u.removes) u.adds) := by
  simp only [ddbUpdateItem]
  rw [if_neg (not_not_intro hnodup), hrow]
  simp only [Option.getD_some]
  rw [hcond, hadds]
  simp

theorem simple_update_success (cfg : Config) (tbl : Table) (id : String)
    (sets : List (String × Value)) (removes : List String)
    (caller now action : String) (row : Item)
    (hrow : tgetRow tbl cfg.pkName (.str id) = some row)
    (hdel : aget row DELETED = none)
    (hnodup : (updTargets (decorate ⟨sets, removes, []⟩ caller now action)).Nodup)
    (hadds : addsValid row
      (decorate ⟨sets, removes, []⟩ caller now action).adds = true) :
    simple_update cfg tbl id sets removes true caller now action
      = (tputRow tbl cfg.pkName (.str id)
          (applyAdds (applyRemoves (applySets row
              (decorate ⟨sets, removes, []⟩ caller now action).sets)
            (decorate ⟨sets, removes, []⟩ caller now action).removes)
            (decorate ⟨sets, removes, []⟩ caller now action).adds), .ok true) := by
  have hcond : (match (some (Cond.notExists DELETED) : Option Cond) with
      | none => true
      | some c => evalCond c row) = true := by
    simp [evalCond, hdel]
  have hdd := @ddbUpdateItem_success tbl cfg.pkName (Value.str id)
    (decorate ⟨sets, removes, []⟩ caller now action)
    (some (.notExists DELETED)) row hnodup hrow hcond hadds
  simp only [simple_update, if_true]
  rw [hdd]

/-- C6 amended: when a find request matches a configured index (or the
master-link field) on field `k` and the remaining criteria are nonempty, with
no two criteria fields colliding after expression-token sanitisation and none
sanitising to `deleted`, the index path returns exactly the result of the full
scan with all criteria as filters: identical equality-filter semantics and
identical deleted-item exclusion. -/
theorem C6_index_path_equals_scan
    (indexes : List String) (tbl : Table) (criteria : List (String × Value))
    (k : String) (v : Value) (rest : List (String × Value))
    (hfind : find_index_attr indexes criteria = some (k, v, rest))
    (hrest : rest ≠ [])
    (hnd : (criteria.map (fun p => make_ddb_expressionval p.1)).Nodup)
    (hdel : ∀ p ∈ criteria, make_ddb_expressionval p.1 ≠ "deleted") :
    find_items indexes tbl criteria = perform_scan tbl (some criteria) := by
  obtain ⟨pre, post, hc, hr⟩ := find_index_attr_spec hfind
  have hsub : List.Sublist (rest.map fun p => make_ddb_expressionval p.1)
      (criteria.map fun p => make_ddb_expressionval p.1) := by
    rw [hc, hr]
    simp only [List.map_append, List.map_cons]
    exact List.Sublist.append_left (List.Sublist.cons _ (List.Sublist.refl _)) _
  have hndr : (rest.map fun p => make_ddb_expressionval p.1).Nodup :=
    List.Nodup.sublist hsub hnd
  have hdelr : ∀ p ∈ rest, make_ddb_expressionval p.1 ≠ "deleted" := by
    intro p hp
    apply hdel
    rw [hc]
    rw [hr] at hp
    rcases List.mem_append.mp hp with h | h
    · exact List.mem_append.mpr (Or.inl h)
    · exact List.mem_append.mpr (Or.inr (List.mem_cons_of_mem _ h))
  have hcne : criteria ≠ [] := by
    rw [hc]
    simp
  have hconjr : ((get_filter_expression rest).conj).isEmpty = false := by
    rw [gfe_eq]
    cases rest with
    | nil => exact absurd rfl hrest
    | cons a b => rfl
  have hconjc : ((get_filter_expression criteria).conj).isEmpty = false := by
    rw [gfe_eq]
    cases criteria with
    | nil => exact absurd rfl hcne
    | cons a b => rfl
  simp only [find_items, hfind, perform_query, perform_scan]
  rw [if_neg (by rw [hconjr]; exact Bool.false_ne_true),
    if_neg (by rw [hconjc]; exact Bool.false_ne_true)]
  apply congrArg
  apply List.filter_congr
  intro it _
  rw [evalFE_filter_full rest it hndr hdelr hrest,
    evalFE_filter_full criteria it hnd hdel hcne]
  rw [hc, hr, List.all_append, List.all_append, List.all_cons]
  generalize (aget it k == some v) = a
  generalize notDeletedB it = n
  generalize pre.all (fun p => aget it p.1 == some p.2) = b
  generalize post.all (fun p => aget it p.1 == some p.2) = c
  cases a <;> cases n <;> cases b <;> cases c <;> rfl

/-- C6 witness: on a table with items `ab = 1, cc = 2` and `ab = 5`, the find
request with criteria `ab = 1` (indexed) and `cc = 2` returns the same result
through the index path as the full scan with both criteria as filters. -/
theorem C6_index_path_equals_scan_witness :
    find_items ["ab"] [[("id", .str "1"), ("ab", .num 1), ("cc", .num 2)],
        [("id", .str "2"), ("ab", .num 5)]]
      [("ab", .num 1), ("cc", .num 2)]
    = perform_scan [[("id", .str "1"), ("ab", .num 1), ("cc", .num 2)],
        [("id", .str "2"), ("ab", .num 5)]]
      (some [("ab", .num 1), ("cc", .num 2)]) :=
  C6_index_path_equals_scan ["ab"]
    [[("id", .str "1"), ("ab", .num 1), ("cc", .num 2)],
     [("id", .str "2"), ("ab", .num 5)]]
    [("ab", .num 1), ("cc", .num 2)] "ab" (.num 1) [("cc", .num 2)]
    rfl (by decide) (by decide) (by decide)

/-- C3 amended: tombstone-deleting a visible stored item (unique keys, no
stored `Deleted`, numeric-or-absent `ItemVersion`, primary-key name distinct
from the reserved and hardcoded names) succeeds, and the stored record
afterwards carries `Deleted = 1` and `Tombstoned = true` with every attribute
drawn from the primary key, the reserved fields, and the internal names
`App`, `api`, `type` skipped by the scrub; a subsequent restore raises
`InvalidArguments` and changes nothing. -/
theorem C3_tombstone_strips_to_reserved
    (cfg : Config) (st : ApiState) (id caller now : String) (it : Item)
    (hmode : cfg.deleteMode = .tombstone)
    (hpk : cfg.pkName ∉ [DELETED, TOMBSTONED, ITEM_VERSION, LAST_UPDATE_DATE,
      LAST_UPDATED_BY, LAST_UPDATE_ACTION, "deleted"])
    (hrow : tgetRow st.resourceTable cfg.pkName (.str id) = some it)
    (hkeys : (akeys it).Nodup)
    (hdelabs : aget it DELETED = none)
    (hver : aget it ITEM_VERSION = none ∨
      ∃ n, aget it ITEM_VERSION = some (.num n)) :
    ∃ newIt,
      (sdelete cfg st id caller now none none none).2 = .ok true ∧
      tgetRow (sdelete cfg st id caller now none none none).1.resourceTable
        cfg.pkName (.str id) = some newIt ∧
      aget newIt DELETED = some (.num 1) ∧
      aget newIt TOMBSTONED = some (.boolean true) ∧
      (∀ x ∈ akeys newIt, x ∈ [cfg.pkName, DELETED, TOMBSTONED, ITEM_MASTER_ID,
        ITEM_VERSION, LAST_UPDATE_DATE, LAST_UPDATED_BY, LAST_UPDATE_ACTION,
        APP_ATTR, "api", "type"]) ∧
      restore cfg (sdelete cfg st id caller now none none none).1.resourceTable
        id caller now
        = ((sdelete cfg st id caller now none none none).1.resourceTable,
           .error .invalidArguments) := by
  simp only [List.mem_cons, List.not_mem_nil, or_false, not_or] at hpk
  obtain ⟨hpkD, hpkT, hpkV, hpkLD, hpkLB, hpkLA, hpkdel⟩ := hpk
  have hitpk : aget it cfg.pkName = some (.str id) := tgetRow_pk hrow
  have hfetch : fetch_item st.resourceTable cfg.pkName id false = some it := by
    simp [fetch_item, hrow, hdelabs]
  have hDnotin : DELETED ∉ akeys it := (aget_eq_none_iff it DELETED).mp hdelabs
  obtain ⟨R, hR⟩ : ∃ R, R = akeys (remove_internal_attrs (arem (arem (arem
      (arem it cfg.pkName) ITEM_VERSION) ITEM_MASTER_ID) TOMBSTONED)) := ⟨_, rfl⟩
  have hmemR : ∀ x, x ∈ R ↔ x ∈ akeys it ∧ x ≠ cfg.pkName ∧ x ≠ ITEM_VERSION
      ∧ x ≠ ITEM_MASTER_ID ∧ x ≠ TOMBSTONED ∧ x ≠ APP_ATTR
      ∧ x ≠ LAST_UPDATED_BY ∧ x ≠ LAST_UPDATE_DATE ∧ x ≠ LAST_UPDATE_ACTION
      ∧ x ≠ "api" ∧ x ≠ "type" := by
    intro x
    rw [hR]
    simp only [remove_internal_attrs, mem_akeys_arem]
    tauto
  have hRnd : R.Nodup := by
    rw [hR]
    simp only [remove_internal_attrs]
    exact nodup_akeys_arem _ (nodup_akeys_arem _ (nodup_akeys_arem _
      (nodup_akeys_arem _ (nodup_akeys_arem _ (nodup_akeys_arem _
      (nodup_akeys_arem _ (nodup_akeys_arem _ (nodup_akeys_arem _
      (nodup_akeys_arem _ hkeys)))))))))
  have hUT : updTargets (decorate ⟨[(DELETED, Value.num 1),
      (TOMBSTONED, Value.boolean true)], R, []⟩ caller now ACTION_DELETE)
      = [DELETED, TOMBSTONED, LAST_UPDATE_DATE, LAST_UPDATED_BY,
         LAST_UPDATE_ACTION] ++ R ++ [ITEM_VERSION] := rfl
  have hnodup : (updTargets (decorate ⟨[(DELETED, Value.num 1),
      (TOMBSTONED, Value.boolean true)], R, []⟩ caller now
      ACTION_DELETE)).Nodup := by
    rw [hUT]
    refine List.Nodup.append (List.Nodup.append (by decide) hRnd ?_)
      (by decide) ?_
    · intro a ha hb
      have h2 := (hmemR a).mp hb
      simp only [List.mem_cons, List.not_mem_nil, or_false] at ha
      rcases ha with rfl | rfl | rfl | rfl | rfl
      · exact hDnotin h2.1
      · simp at h2
      · simp at h2
      · simp at h2
      · simp at h2
    · intro a ha hb
      simp only [List.mem_singleton] at hb
      subst hb
      rcases List.mem_append.mp ha with h | h
      · exact absurd h (by decide)
      · have h2 := (hmemR ITEM_VERSION).mp h
        simp at h2
  have hadds2 : addsValid it (decorate ⟨[(DELETED, Value.num 1),
      (TOMBSTONED, Value.boolean true)], R, []⟩ caller now
      ACTION_DELETE).adds = true := by
    show addsValid it [(ITEM_VERSION, 1)] = true
    rcases hver with h | ⟨n, h⟩ <;> simp [addsValid, h]
  have hsu := simple_update_success cfg st.resourceTable id
    [(DELETED, Value.num 1), (TOMBSTONED, Value.boolean true)] R caller now
    ACTION_DELETE it hrow hdelabs hnodup hadds2
  rw [show (decorate ⟨[(DELETED, Value.num 1), (TOMBSTONED, Value.boolean true)],
      R, []⟩ caller now ACTION_DELETE).sets
      = [(DELETED, Value.num 1), (TOMBSTONED, Value.boolean true),
         (LAST_UPDATE_DATE, Value.str now), (LAST_UPDATED_BY, Value.str caller),
         (LAST_UPDATE_ACTION, Value.str ACTION_DELETE)] from rfl,
    show (decorate ⟨[(DELETED, Value.num 1), (TOMBSTONED, Value.boolean true)],
      R, []⟩ caller now ACTION_DELETE).removes = R from rfl,
    show (decorate ⟨[(DELETED, Value.num 1), (TOMBSTONED, Value.boolean true)],
      R, []⟩ caller now ACTION_DELETE).adds = [(ITEM_VERSION, 1)] from rfl] at hsu
  obtain ⟨N, hN⟩ : ∃ N, N = applyAdds (applyRemoves (applySets it
      [(DELETED, Value.num 1), (TOMBSTONED, Value.boolean true),
       (LAST_UPDATE_DATE, Value.str now), (LAST_UPDATED_BY, Value.str caller),
       (LAST_UPDATE_ACTION, Value.str ACTION_DELETE)]) R)
      [(ITEM_VERSION, 1)] := ⟨_, rfl⟩
  rw [← hN] at hsu
  have happ : ∀ x : Item,
      applyAdds x [(ITEM_VERSION, 1)] = applyAdd x ITEM_VERSION 1 :=
    fun _ => rfl
  have hmapS : ([(DELETED, Value.num 1), (TOMBSTONED, Value.boolean true),
      (LAST_UPDATE_DATE, Value.str now), (LAST_UPDATED_BY, Value.str caller),
      (LAST_UPDATE_ACTION, Value.str ACTION_DELETE)]).map Prod.fst
      = [DELETED, TOMBSTONED, LAST_UPDATE_DATE, LAST_UPDATED_BY,
         LAST_UPDATE_ACTION] := rfl
  have hNpk : aget N cfg.pkName = some (.str id) := by
    rw [hN, happ, aget_applyAdd_ne hpkV,
      aget_applyRemoves_not_mem (fun hc => by
        have h2 := (hmemR cfg.pkName).mp hc
        simp at h2),
      aget_applySets_not_mem (fun hc => by
        rw [hmapS] at hc
        simp at hc
        tauto)]
    exact hitpk
  have hNdel : aget N DELETED = some (.num 1) := by
    rw [hN, happ, aget_applyAdd_ne (by decide),
      aget_applyRemoves_not_mem (fun hc =>
        hDnotin ((hmemR DELETED).mp hc).1)]
    exact aget_applySets_mem (by rw [hmapS]; decide) (by simp)
  have hNtomb : aget N TOMBSTONED = some (.boolean true) := by
    rw [hN, happ, aget_applyAdd_ne (by decide),
      aget_applyRemoves_not_mem (fun hc => by
        have h2 := (hmemR TOMBSTONED).mp hc
        simp at h2)]
    exact aget_applySets_mem (by rw [hmapS]; decide) (by simp)
  have hNsub : ∀ x ∈ akeys N, x ∈ [cfg.pkName, DELETED, TOMBSTONED,
      ITEM_MASTER_ID, ITEM_VERSION, LAST_UPDATE_DATE, LAST_UPDATED_BY,
      LAST_UPDATE_ACTION, APP_ATTR, "api", "type"] := by
    intro x hx
    rw [hN, happ] at hx
    rcases mem_akeys_applyAdd.mp hx with hx2 | rfl
    · obtain ⟨hx3, hxnotR⟩ := mem_akeys_applyRemoves.mp hx2
      rcases mem_akeys_applySets.mp hx3 with hx4 | hx5
      · have h6 : ¬ (x ∈ akeys it ∧ x ≠ cfg.pkName ∧ x ≠ ITEM_VERSION
            ∧ x ≠ ITEM_MASTER_ID ∧ x ≠ TOMBSTONED ∧ x ≠ APP_ATTR
            ∧ x ≠ LAST_UPDATED_BY ∧ x ≠ LAST_UPDATE_DATE
            ∧ x ≠ LAST_UPDATE_ACTION ∧ x ≠ "api" ∧ x ≠ "type") :=
          fun hcontra => hxnotR ((hmemR x).mpr hcontra)
        push_neg at h6
        have h7 := h6 hx4
        by_cases e1 : x = cfg.pkName
        · rw [e1]; simp
        by_cases e2 : x = ITEM_VERSION
        · rw [e2]; simp
        by_cases e3 : x = ITEM_MASTER_ID
        · rw [e3]; simp
        by_cases e4 : x = TOMBSTONED
        · rw [e4]; simp
        by_cases e5 : x = APP_ATTR
        · rw [e5]; simp
        by_cases e6 : x = LAST_UPDATED_BY
        · rw [e6]; simp
        by_cases e7 : x = LAST_UPDATE_DATE
        · rw [e7]; simp
        by_cases e8 : x = LAST_UPDATE_ACTION
        · rw [e8]; simp
        by_cases e9 : x = "api"
        · rw [e9]; simp
        rw [h7 e1 e2 e3 e4 e5 e6 e7 e8 e9]
        simp
      · rw [hmapS] at hx5
        simp only [List.mem_cons, List.not_mem_nil, or_false] at hx5
        rcases hx5 with rfl | rfl | rfl | rfl | rfl <;> simp
    · simp
  have hgetN : tgetRow (tputRow st.resourceTable cfg.pkName (.str id) N)
      cfg.pkName (.str id) = some N :=
    tgetRow_tputRow hrow hNpk
  have hfetch2 : fetch_item (tputRow st.resourceTable cfg.pkName (.str id) N)
      cfg.pkName id true = some N := by
    simp [fetch_item, hgetN]
  have hNdel2 : aget N "deleted" = none := by
    rw [aget_eq_none_iff]
    intro hc
    have h8 := hNsub _ hc
    simp [DELETED, TOMBSTONED, ITEM_MASTER_ID, ITEM_VERSION, LAST_UPDATE_DATE,
      LAST_UPDATED_BY, LAST_UPDATE_ACTION, APP_ATTR] at h8
    exact hpkdel h8.symm
  have hUT2 : updTargets (decorate ⟨[("deleted", Value.num 0)], [TOMBSTONED],
      []⟩ caller now ACTION_RESTORE)
      = ["deleted", LAST_UPDATE_DATE, LAST_UPDATED_BY, LAST_UPDATE_ACTION,
         TOMBSTONED, ITEM_VERSION] := rfl
  have hnodup2 : (updTargets (decorate ⟨[("deleted", Value.num 0)],
      [TOMBSTONED], []⟩ caller now ACTION_RESTORE)).Nodup := by
    rw [hUT2]
    decide
  have hcond2 : evalCond (.conj (.attrEq "deleted" (.num 1))
      (.disj (.attrEq TOMBSTONED (.boolean false)) (.notExists TOMBSTONED))) N
      = false := by
    simp [evalCond, hNdel2]
  have hdd2 : ddbUpdateItem (tputRow st.resourceTable cfg.pkName (.str id) N)
      cfg.pkName (.str id) (decorate ⟨[("deleted", Value.num 0)], [TOMBSTONED],
      []⟩ caller now ACTION_RESTORE) (some (.conj (.attrEq "deleted" (.num 1))
      (.disj (.attrEq TOMBSTONED (.boolean false)) (.notExists TOMBSTONED))))
      = .error .conditionalCheckFailed := by
    simp only [ddbUpdateItem]
    rw [if_neg (not_not_intro hnodup2), hgetN]
    simp only [Option.getD_some]
    rw [hcond2]
    simp
  have hrest : restore cfg (tputRow st.resourceTable cfg.pkName (.str id) N)
      id caller now = (tputRow st.resourceTable cfg.pkName (.str id) N,
        .error .invalidArguments) := by
    simp only [restore, hfetch2]
    rw [hdd2]
  have hdelres : delete_resource cfg st.resourceTable id caller now none
      = (tputRow st.resourceTable cfg.pkName (.str id) N, .ok true) := by
    simp only [delete_resource, hmode, hfetch]
    rw [← hR]
    exact hsu
  have hsd : sdelete cfg st id caller now none none none
      = (⟨tputRow st.resourceTable cfg.pkName (.str id) N,
          delete_metadata cfg st.metadataTable id⟩, .ok true) := by
    simp only [sdelete, hmode]
    simp [hdelres]
  refine ⟨N, ?_, ?_, hNdel, hNtomb, hNsub, ?_⟩
  · rw [hsd]
  · rw [hsd]
    exact hgetN
  · rw [hsd]
    exact hrest

/-- C3 witness: tombstone-deleting item `A` in the tombstone namespace
produces a record holding only the primary key and reserved fields with
`Deleted = 1` and `Tombstoned = true`, and the subsequent restore raises
`InvalidArguments`. -/
theorem C3_tombstone_strips_to_reserved_witness :
    ∃ newIt,
      (sdelete exCfgTomb exStA "A" "c" "t" none none none).2 = .ok true ∧
      tgetRow (sdelete exCfgTomb exStA "A" "c" "t" none none none).1.resourceTable
        "id" (.str "A") = some newIt ∧
      aget newIt DELETED = some (.num 1) ∧
      aget newIt TOMBSTONED = some (.boolean true) ∧
      (∀ x ∈ akeys newIt, x ∈ ["id", DELETED, TOMBSTONED, ITEM_MASTER_ID,
        ITEM_VERSION, LAST_UPDATE_DATE, LAST_UPDATED_BY, LAST_UPDATE_ACTION,
        APP_ATTR, "api", "type"]) ∧
      restore exCfgTomb
        (sdelete exCfgTomb exStA "A" "c" "t" none none none).1.resourceTable
        "A" "c" "t"
        = ((sdelete exCfgTomb exStA "A" "c" "t" none none none).1.resourceTable,
           .error .invalidArguments) :=
  C3_tombstone_strips_to_reserved exCfgTomb exStA "A" "c" "t" exRowA rfl
    (by decide) rfl (by decide) rfl (Or.inr ⟨3, rfl⟩)

end DataAPI
